import Mathlib

/-! FoxVillageParser: a shallow embedding of `parser.js`.

The text normalizers, the class resolver, the rider matcher and the schedule
assembler of `parser.js` are embedded as Lean functions, and the properties the
specification states about them are proved (or refuted) below.

Modelling conventions.

* A JavaScript string is its sequence of characters (`Str`).  The two regular
  expressions of the source and `String.prototype.includes` only compare
  characters for equality, so nothing depends on the encoding.
* A value that may be absent (`undefined`, `null`) is an `Option`; the
  truthiness tests of the source (`if (test)`, `a || b`) become explicit.
* A fetched payload is a `Payload`: JSON `null`, a raw text body, or an object
  whose expected top-level key is absent, holds a non-array, or holds an array
  of well-typed entries.
* A JavaScript object used as a dictionary is the list of its own properties
  (`JSObject`); `Object.entries(classMapping)` is the list `classMapping`
  itself.
* Network and clock are parameters: the date functions are a `DateEnv`, the
  fetches a `World`.  A thrown exception is `Except.error`.
-/

namespace FoxVillage

/-- A JavaScript string, as the list of its characters. -/
abbrev Str := List Char

/-! ## String primitives -/

/-- Embedding of `String.prototype.includes`: `includes s sub` holds when `sub`
occurs in `s` as a contiguous block.  The search starts at every position of
`s` from the left, the end of the string included (so that the empty string is
found everywhere). -/
def includes : Str → Str → Bool
  | [], sub => sub.isEmpty
  | c :: cs, sub => sub.isPrefixOf (c :: cs) || includes cs sub

/-! ## Regular expressions `/>([^<]+)</` and `/>(\d+)</`

Both have the shape `>` `(C+)` `<` for a character class `C`.  The matcher
below follows the backtracking semantics of a JavaScript regular expression:
the greedy `C+` first tries to take one more character, and only when the rest
of the pattern then fails does it stop and try the closing `<`. -/

/-- Match `C+<` at the head of the input; the result is the text captured by
the group `(C+)`. -/
def matchGroupThenClose (cls : Char → Bool) : Str → Option Str
  | [] => none
  | c :: rest =>
    if cls c then
      match matchGroupThenClose cls rest with
      | some cap => some (c :: cap)
      | none =>
        match rest with
        | d :: _ => if d = '<' then some [c] else none
        | [] => none
    else none

/-- Match `>(C+)<` anchored at the head of the input. -/
def matchAtHead (cls : Char → Bool) : Str → Option Str
  | [] => none
  | c :: rest => if c = '>' then matchGroupThenClose cls rest else none

/-- Embedding of `htmlString.match(/>(C+)</)` followed by `match[1]`: the
pattern is tried at every start position from the left and the first success
gives the capture; `none` is the `null` of a failed match. -/
def reMatchGroup (cls : Char → Bool) : Str → Option Str
  | [] => none
  | c :: rest =>
    match matchAtHead cls (c :: rest) with
    | some cap => some cap
    | none => reMatchGroup cls rest

/-- The class `[^<]`. -/
def notLt (c : Char) : Bool := c != '<'

/-- The class `\d`: the ten characters `0123456789`. -/
def isDigit (c : Char) : Bool := "0123456789".toList.contains c

/-! ## Text normalizers -/

/-- Embedding of `extractRiderName` (parser.js, lines 22-25). -/
def extractRiderName (htmlString : Str) : Str :=
  match reMatchGroup notLt htmlString with
  | some cap => cap
  | none => htmlString

/-- Embedding of `extractClassNumber` (parser.js, lines 54-57). -/
def extractClassNumber (htmlString : Str) : Str :=
  match reMatchGroup isDigit htmlString with
  | some cap => cap
  | none => htmlString

/-- Embedding of `normalizeRingName` (parser.js, lines 46-51). -/
def normalizeRingName (ringName : Str) : Str :=
  if ringName = "Combine Obstacle".toList then "Combiné".toList else ringName

/-- The date functions of the host that the source calls:
`weekdayLong d` is `new Date(d).toLocaleDateString('en-US', {weekday: 'long'})`
and `timeString t` is `new Date(t).toTimeString()`.  Neither throws; an
unparseable input gives the text `Invalid Date`. -/
structure DateEnv where
  weekdayLong : Str → Str
  timeString : Str → Str

/-- The object literal `dayMap` of `getFrenchDay`, read at a key. -/
def dayMap (englishDay : Str) : Option Str :=
  if englishDay = "Friday".toList then some "Vendredi".toList
  else if englishDay = "Saturday".toList then some "Samedi".toList
  else if englishDay = "Sunday".toList then some "Dimanche".toList
  else none

/-- Embedding of `getFrenchDay` (parser.js, lines 28-37):
`dayMap[englishDay] || englishDay`. -/
def getFrenchDay (env : DateEnv) (dateString : Str) : Str :=
  let englishDay := env.weekdayLong dateString
  match dayMap englishDay with
  | some fr => fr
  | none => englishDay

/-- Embedding of `formatTime` (parser.js, lines 40-43):
`time.toTimeString().slice(0, 5)`. -/
def formatTime (env : DateEnv) (timeString : Str) : Str :=
  (env.timeString timeString).take 5

/-! ## Data model -/

/-- One entry of the roster endpoint. -/
structure RosterEntry where
  riderID : Int
  riderName : Str
  deriving DecidableEq, Repr

/-- The object pushed by `findRidersByNames` (parser.js, lines 104-108). -/
structure MatchedRider where
  riderID : Int
  riderName : Str
  originalName : Str
  deriving DecidableEq, Repr

/-- One entry of the class-metadata endpoint.  `classID` is the property key
the record is stored under (a JSON number is converted to its decimal text when
it is used as a key); an absent `className` is the empty string, which the
source treats alike (both are falsy). -/
structure ClassRecord where
  classID : Str
  className : Str
  deriving DecidableEq, Repr

/-- One entry of a rider's raw schedule; `test` may be absent. -/
structure RawScheduleEntry where
  classText : Str
  test : Option Str
  ring : Str
  day : Str
  rideTime : Str
  deriving DecidableEq, Repr

/-- The object pushed by `extractRiderSchedule` (parser.js, lines 195-202). -/
structure ScheduleRow where
  rider_name : Str
  rider_id : Int
  class_ : Str
  ring : Str
  day : Str
  time : Str
  deriving DecidableEq, Repr

/-- What the expected top-level key of a fetched object holds. -/
inductive Field (α : Type) where
  | absent : Field α
  | nonArray : Field α
  | array (items : List α) : Field α
  deriving DecidableEq, Repr

/-- What `fetchUrl` resolves to: the parsed JSON body, or the raw text when the
body is not JSON. -/
inductive Payload (α : Type) where
  | null : Payload α
  | text (body : Str) : Payload α
  | object (field : Field α) : Payload α
  deriving DecidableEq, Repr

/-- A JavaScript object used as a dictionary: its own properties, in order.
The prototype chain is not modelled: the keys read and written are taken not to
name a property of `Object.prototype`. -/
abbrev JSObject (α : Type) := List (Str × α)

/-- Property read `obj[key]`; `none` is `undefined`. -/
def JSObject.get {α : Type} (obj : JSObject α) (key : Str) : Option α :=
  match obj with
  | [] => none
  | (k, v) :: rest => if k = key then some v else JSObject.get rest key

/-- Property write `obj[key] = value`: an existing property is overwritten in
place, a new one is added at the end. -/
def JSObject.set {α : Type} (obj : JSObject α) (key : Str) (value : α) : JSObject α :=
  match obj with
  | [] => [(key, value)]
  | (k, v) :: rest =>
    if k = key then (k, value) :: rest else (k, v) :: JSObject.set rest key value

/-! ## Class resolver -/

/-- Embedding of `buildClassLookup` (parser.js, lines 133-143). -/
def buildClassLookup (classData : Payload ClassRecord) : JSObject ClassRecord :=
  match classData with
  | .object (.array records) =>
    records.foldl (fun lookup cls => JSObject.set lookup cls.classID cls) []
  | _ => []

/-- The mapping loop of `formatClassString` (parser.js, lines 161-167):
`mappedName` starts as `fullTestName`; the first entry whose pattern is included
in `fullTestName` sets it and breaks out of the loop. -/
def applyClassMapping (fullTestName : Str) : List (Str × Str) → Str
  | [] => fullTestName
  | (originalName, mapped) :: rest =>
    if includes fullTestName originalName then mapped
    else applyClassMapping fullTestName rest

/-- The lookup of a run whose class-metadata fetch gave nothing: `{}`. -/
def emptyLookup : JSObject ClassRecord := []

/-- The `className` that `formatClassString` takes from the lookup
(parser.js, lines 147-152): empty unless the lookup holds a record with a
non-empty `className` at `classId`. -/
def lookupClassName (classLookup : JSObject ClassRecord) (classId : Str) : Str :=
  match JSObject.get classLookup classId with
  | some cls => if cls.className.isEmpty then [] else cls.className
  | none => []

/-- The `fullTestName` of `formatClassString` (parser.js, lines 155-158). -/
def fullTestNameOf (className : Str) (test : Option Str) : Str :=
  match test with
  | some t => if t.isEmpty then className else t
  | none => className

/-- The traditional label of `formatClassString` (parser.js, lines 175-183). -/
def traditionalLabel (classId className : Str) (test : Option Str) : Str :=
  let result := classId
  let result := if className.isEmpty then result else result ++ (" - ".toList ++ className)
  match test with
  | some t => if t.isEmpty then result else result ++ (" - ".toList ++ t)
  | none => result

/-- Embedding of `formatClassString` (parser.js, lines 146-184). -/
def formatClassString (classId : Str) (test : Option Str)
    (classLookup : JSObject ClassRecord) (classMapping : List (Str × Str)) : Str :=
  let className := lookupClassName classLookup classId
  let fullTestName := fullTestNameOf className test
  let mappedName := applyClassMapping fullTestName classMapping
  if mappedName ≠ fullTestName then mappedName
  else traditionalLabel classId className test

/-! ## Rider matcher -/

/-- The callback passed to `find` in `findRidersByNames` (parser.js, lines
98-101): bidirectional containment between the cleaned roster name and the
target name. -/
def nameMatches (targetName : Str) (r : RosterEntry) : Bool :=
  let cleanName := extractRiderName r.riderName
  includes cleanName targetName || includes targetName cleanName

/-- One turn of the loop of `findRidersByNames` (parser.js, lines 97-113):
`Array.prototype.find` is `List.find?`, and a found rider is pushed. -/
def findRidersStep (roster : List RosterEntry) (foundRiders : List MatchedRider)
    (targetName : Str) : List MatchedRider :=
  match roster.find? (nameMatches targetName) with
  | some rider =>
    foundRiders ++ [{ riderID := rider.riderID,
                      riderName := extractRiderName rider.riderName,
                      originalName := targetName }]
  | none => foundRiders

/-- Embedding of `findRidersByNames` (parser.js, lines 89-116).  The guard of
line 92 returns the empty list for every payload but an object whose
`riderData` is an array. -/
def findRidersByNames (riderData : Payload RosterEntry) (targetNames : List Str) :
    List MatchedRider :=
  match riderData with
  | .object (.array roster) => targetNames.foldl (findRidersStep roster) []
  | _ => []

/-! ## Schedule assembler -/

/-- What a JavaScript `throw` carries: the `TypeError` of a property read on
`null`, or the rejection of a fetch. -/
inductive Thrown where
  | typeError : Thrown
  | fetchFailed (message : Str) : Thrown
  deriving DecidableEq, Repr

/-- The row that `extractRiderSchedule` pushes for one raw entry
(parser.js, lines 192-202). -/
def scheduleRowOf (env : DateEnv) (riderInfo : MatchedRider)
    (classLookup : JSObject ClassRecord) (classMapping : List (Str × Str))
    (entry : RawScheduleEntry) : ScheduleRow :=
  let classId := extractClassNumber entry.classText
  let formattedClass := formatClassString classId entry.test classLookup classMapping
  { rider_name := riderInfo.originalName,
    rider_id := riderInfo.riderID,
    class_ := formattedClass,
    ring := normalizeRingName entry.ring,
    day := getFrenchDay env entry.day,
    time := formatTime env entry.rideTime }

/-- Embedding of `extractRiderSchedule` (parser.js, lines 187-207).  The
property read `rawData.riderPageData` of line 190 throws a `TypeError` on
`null`; on a text body it gives `undefined`. -/
def extractRiderSchedule (env : DateEnv) (riderInfo : MatchedRider)
    (rawData : Payload RawScheduleEntry) (classLookup : JSObject ClassRecord)
    (classMapping : List (Str × Str)) : Except Thrown (List ScheduleRow) :=
  match rawData with
  | .null => .error .typeError
  | .text _ => .ok []
  | .object .absent => .ok []
  | .object .nonArray => .ok []
  | .object (.array riderPageData) =>
    .ok (riderPageData.foldl
      (fun schedule entry =>
        schedule ++ [scheduleRowOf env riderInfo classLookup classMapping entry]) [])

/-- The content of `config.json`; each key may be absent. -/
structure Config where
  showId : Option Nat
  riderNames : Option (List Str)
  classMapping : Option (List (Str × Str))

/-- Everything outside the program that one run reads.  `configFile` is `none`
when `config.json` is missing or is not JSON.  The three fetches are the three
endpoints called through `fetchUrl`; `.error` is a rejected promise.  The
schedule fetch also receives the number of schedule fetches made before it, so
that two fetches for the same rider may answer differently. -/
structure World where
  configFile : Option Config
  dates : DateEnv
  fetchRoster : Nat → Except Thrown (Payload RosterEntry)
  fetchClasses : Nat → Except Thrown (Payload ClassRecord)
  fetchSchedule : Nat → Nat → Int → Except Thrown (Payload RawScheduleEntry)

/-- Embedding of `loadConfig` (parser.js, lines 60-72). -/
def loadConfig (w : World) : Config :=
  match w.configFile with
  | some config => config
  | none => { showId := some 11474, riderNames := some [], classMapping := some [] }

/-- Embedding of `fetchRiderData` (parser.js, lines 75-86): a failure is
thrown again. -/
def fetchRiderData (w : World) (showId : Nat) : Except Thrown (Payload RosterEntry) :=
  match w.fetchRoster showId with
  | .ok riderData => .ok riderData
  | .error e => .error e

/-- Embedding of `fetchClassData` (parser.js, lines 119-130): a failure gives
`null`. -/
def fetchClassData (w : World) (showId : Nat) : Payload ClassRecord :=
  match w.fetchClasses showId with
  | .ok classData => classData
  | .error _ => .null

/-- The body of the per-rider loop of `parseRiders` (parser.js, lines
245-263) for the rider served by schedule fetch number `callNo`: inside the
`try`, the fetch and `extractRiderSchedule` may both throw; the `catch` logs
and leaves `allSchedules` as it was. -/
def scheduleLoopBody (w : World) (showId : Nat) (classLookup : JSObject ClassRecord)
    (classMapping : List (Str × Str)) (callNo : Nat) (allSchedules : List ScheduleRow)
    (riderInfo : MatchedRider) : List ScheduleRow :=
  match w.fetchSchedule callNo showId riderInfo.riderID with
  | .ok scheduleData =>
    match extractRiderSchedule w.dates riderInfo scheduleData classLookup classMapping with
    | .ok riderSchedule => allSchedules ++ riderSchedule
    | .error _ => allSchedules
  | .error _ => allSchedules

/-- The per-rider loop of `parseRiders` (parser.js, lines 243-265). -/
def scheduleLoop (w : World) (showId : Nat) (classLookup : JSObject ClassRecord)
    (classMapping : List (Str × Str)) :
    Nat → List MatchedRider → List ScheduleRow → List ScheduleRow
  | _, [], allSchedules => allSchedules
  | callNo, riderInfo :: rest, allSchedules =>
    scheduleLoop w showId classLookup classMapping (callNo + 1) rest
      (scheduleLoopBody w showId classLookup classMapping callNo allSchedules riderInfo)

/-- The show id of a run: `config.showId || 11474` (parser.js, line 214). -/
def effectiveShowId (config : Config) : Nat :=
  match config.showId with
  | some n => if n = 0 then 11474 else n
  | none => 11474

/-- The rider names of a run: `config.riderNames || []` (parser.js, line 215). -/
def effectiveRiderNames (config : Config) : List Str :=
  match config.riderNames with
  | some names => names
  | none => []

/-- The class mapping of a run: `config.classMapping || {}` (parser.js, line
216), as its list of entries. -/
def effectiveClassMapping (config : Config) : List (Str × Str) :=
  match config.classMapping with
  | some mapping => mapping
  | none => []

/-- Embedding of `parseRiders` (parser.js, lines 210-271).  The function
declares no parameter.  Line 229 reads `riderData.riderData`, which throws a
`TypeError` when the roster payload is `null`; the outer `catch` throws every
error again. -/
def parseRiders (w : World) : Except Thrown (List ScheduleRow) :=
  let config := loadConfig w
  let showId := effectiveShowId config
  let riderNames := effectiveRiderNames config
  let classMapping := effectiveClassMapping config
  if riderNames.length = 0 then .ok []
  else
    match fetchRiderData w showId with
    | .error e => .error e
    | .ok .null => .error .typeError
    | .ok riderData =>
      let foundRiders := findRidersByNames riderData riderNames
      if foundRiders.length = 0 then .ok []
      else
        let classData := fetchClassData w showId
        let classLookup := buildClassLookup classData
        .ok (scheduleLoop w showId classLookup classMapping 0 foundRiders [])

/-- What a command-line run leaves behind: the exit status of the process and,
when the run completed, the schedule written to `schedule.json` and
`docs/schedule.json`. -/
structure CliResult where
  exitCode : Nat
  written : Option (List ScheduleRow)
  deriving DecidableEq, Repr

/-- Embedding of the command-line entry point (parser.js, lines 274-306);
`args` is `process.argv.slice(2)`.  Line 286 calls `parseRiders(riderNames)`,
and `parseRiders` declares no parameter, so the argument is dropped by the
call.  Writing the two files is taken to succeed. -/
def cliMain (w : World) (args : List Str) : CliResult :=
  let riderNames := args
  let config := loadConfig w
  let configRiders := effectiveRiderNames config
  if riderNames.length = 0 ∧ configRiders.length = 0 then
    { exitCode := 1, written := none }
  else
    match parseRiders w with
    | .ok schedule => { exitCode := 0, written := some schedule }
    | .error _ => { exitCode := 1, written := none }

/-! ## Sample data for the concrete runs -/

/-- A host on which every date is a Saturday at half past nine. -/
def sampleDates : DateEnv :=
  { weekdayLong := fun _ => "Saturday".toList,
    timeString := fun _ => "09:30:00 GMT-0400 (Eastern Daylight Time)".toList }

/-- A raw schedule of two entries. -/
def sampleEntries : List RawScheduleEntry :=
  [{ classText := "<a href=c>12</a>".toList, test := some "Training Level".toList,
     ring := "Combine Obstacle".toList, day := "2024-06-01".toList,
     rideTime := "2024-06-01T09:30:00".toList },
   { classText := "<a href=c>15</a>".toList, test := none,
     ring := "Ring 2".toList, day := "2024-06-01".toList,
     rideTime := "2024-06-01T11:00:00".toList }]

/-- A run with two configured riders, both on the roster.  The class-metadata
fetch fails; the schedule fetch of rider 1 fails and that of rider 2 answers
with `sampleEntries`. -/
def sampleWorld : World :=
  { configFile := some { showId := some 7, riderNames := some ["Ann".toList, "Bob".toList],
                         classMapping := none },
    dates := sampleDates,
    fetchRoster := fun _ =>
      .ok (.object (.array [⟨1, ">Ann Archer<".toList⟩, ⟨2, ">Bob Baker<".toList⟩])),
    fetchClasses := fun _ => .error (.fetchFailed "socket hang up".toList),
    fetchSchedule := fun _ _ riderID =>
      if riderID = 1 then .error (.fetchFailed "socket hang up".toList)
      else .ok (.object (.array sampleEntries)) }

/-- The world `w` with the `riderNames` of its configuration replaced by
`names` (the other keys and the fetches are those of `w`). -/
def withRiderNames (w : World) (names : List Str) : World :=
  { w with configFile := some { loadConfig w with riderNames := some names } }

/-- The world `sampleWorld` with a roster endpoint that answers with the JSON
text `null`. -/
def nullRosterWorld : World :=
  { sampleWorld with fetchRoster := fun _ => .ok .null }

/-! ## Notions used to state the properties -/

/-- An occurrence of the pattern `>(C+)<` at the head of a string: `>`, then the
non-empty run `D` of class characters, then `<`. -/
def OccursAtHead (cls : Char → Bool) (D s : Str) : Prop :=
  D ≠ [] ∧ (∀ c ∈ D, cls c = true) ∧ ∃ post, s = '>' :: (D ++ '<' :: post)

/-- An occurrence in `s` of `>`, immediately followed by the non-empty run `D`
of ASCII digits, immediately followed by `<`; `pre` is the text before it and
`post` the text after it. -/
def DigitOccurrence (s pre D post : Str) : Prop :=
  s = pre ++ '>' :: (D ++ '<' :: post) ∧ D ≠ [] ∧ ∀ c ∈ D, c ∈ "0123456789".toList

/-- The bidirectional containment of the matcher, as the specification words
it: the cleaned name of the roster entry contains the target name, or is
contained in it. -/
def NamesContain (targetName : Str) (r : RosterEntry) : Prop :=
  targetName <:+: extractRiderName r.riderName ∨ extractRiderName r.riderName <:+: targetName

/-- A payload that does not have the expected shape: anything but an object
whose expected key holds an array. -/
def Malformed {α : Type} (payload : Payload α) : Prop :=
  ∀ items, payload ≠ .object (.array items)

/-- An occurrence in `s` of `>`, immediately followed by the non-empty run `X`
of characters other than `<`, immediately followed by `<`; `pre` is the text
before it and `post` the text after it. -/
def NameOccurrence (s pre X post : Str) : Prop :=
  s = pre ++ '>' :: (X ++ '<' :: post) ∧ X ≠ [] ∧ '<' ∉ X

/-- The first entry of the mapping `M` whose pattern is a substring of `F` is
`(p, v)`: the entries before it have patterns that are not substrings of `F`. -/
def FirstMatch (M : List (Str × Str)) (F p v : Str) : Prop :=
  ∃ pre post, M = pre ++ (p, v) :: post ∧ p <:+: F ∧ ∀ q ∈ pre, ¬ q.1 <:+: F

/-! ## Lemmas: strings and the mapping loop -/

/-- The embedding of `includes` decides the contiguous-sublist relation. -/
theorem includes_iff (s sub : Str) : includes s sub = true ↔ sub <:+: s := by
  induction s with
  | nil => cases sub <;> simp [includes]
  | cons c cs ih =>
    simp only [includes, Bool.or_eq_true, ih, List.infix_cons_iff, List.isPrefixOf_iff_prefix]

theorem includes_eq_false_iff (s sub : Str) : includes s sub = false ↔ ¬ sub <:+: s := by
  rw [← includes_iff, Bool.not_eq_true]

/-- When no pattern of the mapping occurs in the name, the loop leaves the name
as it is. -/
theorem applyClassMapping_of_no_match (F : Str) (M : List (Str × Str))
    (h : ∀ q ∈ M, ¬ q.1 <:+: F) : applyClassMapping F M = F := by
  induction M with
  | nil => rfl
  | cons q rest ih =>
    obtain ⟨p, v⟩ := q
    have hp : includes F p = false := (includes_eq_false_iff F p).2 (h (p, v) (by simp))
    simp only [applyClassMapping, hp, Bool.false_eq_true, if_false]
    exact ih (fun q hq => h q (List.mem_cons_of_mem _ hq))

/-- The loop stops at the first entry whose pattern occurs in the name. -/
theorem applyClassMapping_of_first_match (F p v : Str) (pre post : List (Str × Str))
    (hp : p <:+: F) (hpre : ∀ q ∈ pre, ¬ q.1 <:+: F) :
    applyClassMapping F (pre ++ (p, v) :: post) = v := by
  induction pre with
  | nil => simp [applyClassMapping, (includes_iff F p).2 hp]
  | cons q rest ih =>
    obtain ⟨p1, v1⟩ := q
    have h1 : includes F p1 = false := (includes_eq_false_iff F p1).2 (hpre (p1, v1) (by simp))
    simp only [List.cons_append, applyClassMapping, h1, Bool.false_eq_true, if_false]
    exact ih (fun q hq => hpre q (List.mem_cons_of_mem _ hq))

theorem lookupClassName_eq (L : JSObject ClassRecord) (classId : Str) :
    lookupClassName L classId = ((JSObject.get L classId).map ClassRecord.className).getD [] := by
  unfold lookupClassName
  cases h : JSObject.get L classId with
  | none => rfl
  | some cls =>
    cases hc : cls.className with
    | nil => simp [hc]
    | cons a t => simp [hc]

theorem fullTestNameOf_eq (cn : Str) (test : Option Str) :
    fullTestNameOf cn test = if test.getD [] = [] then cn else test.getD [] := by
  cases test with
  | none => rfl
  | some t => cases t <;> simp [fullTestNameOf]

theorem traditionalLabel_eq (classId cn : Str) (test : Option Str) :
    traditionalLabel classId cn test =
      classId ++ (if cn = [] then [] else " - ".toList ++ cn)
        ++ (if test.getD [] = [] then [] else " - ".toList ++ test.getD []) := by
  cases test with
  | none => cases cn <;> simp [traditionalLabel]
  | some t => cases t <;> cases cn <;> simp [traditionalLabel]

/-- When no pattern matches, `formatClassString` builds the traditional
label. -/
theorem formatClassString_of_no_match (classId : Str) (test : Option Str)
    (L : JSObject ClassRecord) (M : List (Str × Str))
    (h : ∀ q ∈ M, ¬ q.1 <:+: fullTestNameOf (lookupClassName L classId) test) :
    formatClassString classId test L M
      = traditionalLabel classId (lookupClassName L classId) test := by
  simp [formatClassString, applyClassMapping_of_no_match _ M h]

/-- When the first matching pattern maps to a string other than the full test
name, `formatClassString` returns that replacement. -/
theorem formatClassString_of_first_match (classId : Str) (test : Option Str)
    (L : JSObject ClassRecord) (p v : Str) (pre post : List (Str × Str))
    (hp : p <:+: fullTestNameOf (lookupClassName L classId) test)
    (hpre : ∀ q ∈ pre, ¬ q.1 <:+: fullTestNameOf (lookupClassName L classId) test)
    (hv : v ≠ fullTestNameOf (lookupClassName L classId) test) :
    formatClassString classId test L (pre ++ (p, v) :: post) = v := by
  simp [formatClassString, applyClassMapping_of_first_match _ p v pre post hp hpre, hv]

/-! ## Claims C1, C2, C10: the class resolver -/

/-- C1 (the code departs from the claim): the mapping
`Dressage -> Dressage Test A` has a pattern that occurs in the test name
`Dressage Test A`, and it is the first (and only) such pattern, yet
`formatClassString` does not return its replacement `Dressage Test A`: the
test of line 170 compares the replacement with the full test name, finds them
equal, and the traditional label `7 - Dressage Test A` is returned. -/
theorem formatClassString_replacement_equal_to_test_name :
    "Dressage".toList <:+: "Dressage Test A".toList ∧
    formatClassString "7".toList (some "Dressage Test A".toList) emptyLookup
        [("Dressage".toList, "Dressage Test A".toList)]
      = "7 - Dressage Test A".toList ∧
    formatClassString "7".toList (some "Dressage Test A".toList) emptyLookup
        [("Dressage".toList, "Dressage Test A".toList)]
      ≠ "Dressage Test A".toList := by
  refine ⟨by decide, by decide, by decide⟩

/-- C2: when no pattern of the mapping is a substring of the full test name
(the test when it is non-empty, otherwise the looked-up className),
`formatClassString` returns `classId`, then `" - " ++ className` when the lookup
holds a non-empty className at `classId`, then `" - " ++ test` when the test is
non-empty, and nothing else.  Here `cn` is the className the lookup holds at
`classId` (empty when it holds none) and `t` the test (empty when absent). -/
theorem formatClassString_traditional (classId : Str) (test : Option Str)
    (L : JSObject ClassRecord) (M : List (Str × Str)) (cn t : Str)
    (hcn : cn = ((JSObject.get L classId).map ClassRecord.className).getD [])
    (ht : t = test.getD [])
    (hno : ∀ q ∈ M, ¬ q.1 <:+: (if t = [] then cn else t)) :
    formatClassString classId test L M
      = classId ++ (if cn = [] then [] else " - ".toList ++ cn)
          ++ (if t = [] then [] else " - ".toList ++ t) := by
  subst hcn ht
  rw [formatClassString_of_no_match, traditionalLabel_eq, lookupClassName_eq]
  rw [fullTestNameOf_eq, lookupClassName_eq]
  exact hno

/-- Witness for C2: class 12 is known as `Jumper`, the test is `Round 1`, and the
only pattern `Dressage` occurs in neither. -/
theorem formatClassString_traditional_witness :
    (∀ q ∈ [("Dressage".toList, "D".toList)],
        ¬ q.1 <:+: (if "Round 1".toList = [] then "Jumper".toList else "Round 1".toList)) ∧
    formatClassString "12".toList (some "Round 1".toList)
        [("12".toList, { classID := "12".toList, className := "Jumper".toList })]
        [("Dressage".toList, "D".toList)]
      = "12 - Jumper - Round 1".toList :=
  ⟨by decide,
   (formatClassString_traditional "12".toList (some "Round 1".toList)
      [("12".toList, { classID := "12".toList, className := "Jumper".toList })]
      [("Dressage".toList, "D".toList)] "Jumper".toList "Round 1".toList
      (by decide) (by decide) (by decide)).trans (by decide)⟩

/-- C10, as stated, fails: with an empty lookup and the mapping `Dressage -> D`,
the label of class 12 with test `Dressage` is `D`, not the traditional
`12 - Dressage`. -/
theorem formatClassString_emptyLookup_not_always_traditional :
    ¬ ∀ (classId : Str) (test : Option Str) (M : List (Str × Str)),
        formatClassString classId test emptyLookup M
          = if test.getD [] = [] then classId
            else classId ++ " - ".toList ++ test.getD [] := by
  intro h
  exact absurd (h "12".toList (some "Dressage".toList) [("Dressage".toList, "D".toList)])
    (by decide)

/-- C10, amended: a failed class-metadata fetch makes `fetchClassData` return
`null`, from which `buildClassLookup` builds the empty lookup; and with the
empty lookup, whenever no pattern of the mapping is a substring of the test (of
the empty string when the test is absent or empty), `formatClassString` returns
`classId` when the test is absent or empty and `classId ++ " - " ++ test`
otherwise. -/
theorem formatClassString_after_failed_class_fetch (w : World) (showId : Nat) (e : Thrown)
    (classId : Str) (test : Option Str) (M : List (Str × Str))
    (hfail : w.fetchClasses showId = .error e)
    (hno : ∀ q ∈ M, ¬ q.1 <:+: test.getD []) :
    buildClassLookup (fetchClassData w showId) = emptyLookup ∧
    formatClassString classId test (buildClassLookup (fetchClassData w showId)) M
      = if test.getD [] = [] then classId
        else classId ++ " - ".toList ++ test.getD [] := by
  have hL : buildClassLookup (fetchClassData w showId) = emptyLookup := by
    simp [fetchClassData, hfail, buildClassLookup, emptyLookup]
  refine ⟨hL, ?_⟩
  rw [hL, formatClassString_of_no_match, traditionalLabel_eq]
  · have : lookupClassName emptyLookup classId = [] := rfl
    rw [this]
    by_cases ht : test.getD [] = [] <;> simp [ht]
  · have : lookupClassName emptyLookup classId = [] := rfl
    rw [this, fullTestNameOf_eq]
    by_cases ht : test.getD [] = []
    · simpa [ht] using hno
    · simpa [ht] using hno

/-- Witness for C10: in `sampleWorld` the class-metadata fetch fails; class 15
without a test is labelled `15`, and with the test `Training Level` it is
labelled `15 - Training Level`. -/
theorem formatClassString_after_failed_class_fetch_witness :
    sampleWorld.fetchClasses 7 = .error (.fetchFailed "socket hang up".toList) ∧
    formatClassString "15".toList none (buildClassLookup (fetchClassData sampleWorld 7))
        [("Dressage".toList, "D".toList)] = "15".toList ∧
    formatClassString "15".toList (some "Training Level".toList)
        (buildClassLookup (fetchClassData sampleWorld 7))
        [("Dressage".toList, "D".toList)] = "15 - Training Level".toList :=
  ⟨rfl,
   (formatClassString_after_failed_class_fetch sampleWorld 7 _ "15".toList none
      [("Dressage".toList, "D".toList)] rfl (by decide)).2,
   (formatClassString_after_failed_class_fetch sampleWorld 7 _ "15".toList
      (some "Training Level".toList) [("Dressage".toList, "D".toList)] rfl (by decide)).2⟩

/-! ## Lemmas: the regular-expression matcher -/

theorem notLt_iff (c : Char) : notLt c = true ↔ c ≠ '<' := by
  simp [notLt]

theorem isDigit_iff (c : Char) : isDigit c = true ↔ c ∈ "0123456789".toList := by
  simp [isDigit]

theorem matchGroupThenClose_cons (cls : Char → Bool) (c : Char) (rest : Str) :
    matchGroupThenClose cls (c :: rest) =
      if cls c then
        match matchGroupThenClose cls rest with
        | some cap => some (c :: cap)
        | none =>
          match rest with
          | d :: _ => if d = '<' then some [c] else none
          | [] => none
      else none := rfl

/-- The group `C+` cannot start at `<` when the class excludes it. -/
theorem matchGroupThenClose_lt (cls : Char → Bool) (hcls : cls '<' = false) (post : Str) :
    matchGroupThenClose cls ('<' :: post) = none := by
  rw [matchGroupThenClose_cons, hcls]; rfl

/-- A non-empty run of class characters followed by `<` is captured whole. -/
theorem matchGroupThenClose_run (cls : Char → Bool) (hcls : cls '<' = false)
    (D post : Str) (hne : D ≠ []) (hD : ∀ c ∈ D, cls c = true) :
    matchGroupThenClose cls (D ++ '<' :: post) = some D := by
  induction D with
  | nil => exact absurd rfl hne
  | cons c rest ih =>
    have hc : cls c = true := hD c (by simp)
    cases rest with
    | nil =>
      simp [matchGroupThenClose_cons cls c, hc, matchGroupThenClose_lt cls hcls]
    | cons d rest2 =>
      have := ih (by simp) (fun x hx => hD x (List.mem_cons_of_mem _ hx))
      simp only [List.cons_append] at this ⊢
      rw [matchGroupThenClose_cons cls c, if_pos hc, this]

/-- What a successful match of `C+<` says about the input. -/
theorem matchGroupThenClose_some (cls : Char → Bool) (s cap : Str)
    (h : matchGroupThenClose cls s = some cap) :
    cap ≠ [] ∧ (∀ c ∈ cap, cls c = true) ∧ ∃ post, s = cap ++ '<' :: post := by
  induction s generalizing cap with
  | nil => simp [matchGroupThenClose] at h
  | cons c rest ih =>
    rw [matchGroupThenClose_cons] at h
    by_cases hc : cls c = true
    · rw [if_pos hc] at h
      cases hr : matchGroupThenClose cls rest with
      | some cap1 =>
        rw [hr] at h
        obtain ⟨h1, h2, post, h3⟩ := ih cap1 hr
        have hcap : cap = c :: cap1 := by simpa using h.symm
        subst hcap
        refine ⟨by simp, ?_, post, by rw [h3]; rfl⟩
        intro x hx
        rcases List.mem_cons.1 hx with rfl | hx
        · exact hc
        · exact h2 x hx
      | none =>
        rw [hr] at h
        cases rest with
        | nil => simp at h
        | cons d rest2 =>
          by_cases hd : d = '<'
          · subst hd
            have hcap : cap = [c] := by simpa using h.symm
            subst hcap
            exact ⟨by simp, by simpa using hc, rest2, rfl⟩
          · simp [hd] at h
    · rw [if_neg hc] at h
      exact absurd h (by simp)

theorem matchAtHead_eq_some_iff (cls : Char → Bool) (hcls : cls '<' = false) (s D : Str) :
    matchAtHead cls s = some D ↔ OccursAtHead cls D s := by
  constructor
  · intro h
    cases s with
    | nil => simp [matchAtHead] at h
    | cons c rest =>
      by_cases hc : c = '>'
      · subst hc
        simp only [matchAtHead, if_true] at h
        obtain ⟨h1, h2, post, h3⟩ := matchGroupThenClose_some cls rest D h
        exact ⟨h1, h2, post, by rw [h3]⟩
      · simp [matchAtHead, hc] at h
  · rintro ⟨h1, h2, post, rfl⟩
    simp only [matchAtHead, if_true]
    exact matchGroupThenClose_run cls hcls D post h1 h2

theorem matchAtHead_eq_none_iff (cls : Char → Bool) (hcls : cls '<' = false) (s : Str) :
    matchAtHead cls s = none ↔ ∀ D, ¬ OccursAtHead cls D s := by
  constructor
  · intro h D hD
    rw [(matchAtHead_eq_some_iff cls hcls s D).2 hD] at h
    exact absurd h (by simp)
  · intro h
    cases hm : matchAtHead cls s with
    | none => rfl
    | some D => exact absurd ((matchAtHead_eq_some_iff cls hcls s D).1 hm) (h D)

/-- The search returns the capture of the leftmost start position at which the
pattern matches. -/
theorem reMatchGroup_eq_some_iff (cls : Char → Bool) (hcls : cls '<' = false) (s D : Str) :
    reMatchGroup cls s = some D ↔
      ∃ pre tail, s = pre ++ tail ∧ OccursAtHead cls D tail ∧
        ∀ pre1 tail1 D1, s = pre1 ++ tail1 → pre1.length < pre.length →
          ¬ OccursAtHead cls D1 tail1 := by
  induction s with
  | nil =>
    simp only [reMatchGroup]
    refine ⟨fun h => absurd h (by simp), ?_⟩
    rintro ⟨pre, tail, h, ⟨_, _, post, h3⟩, _⟩
    subst h3
    simp at h
  | cons c rest ih =>
    rw [reMatchGroup]
    cases hm : matchAtHead cls (c :: rest) with
    | some cap =>
      simp only [Option.some.injEq]
      constructor
      · rintro rfl
        exact ⟨[], c :: rest, rfl, (matchAtHead_eq_some_iff cls hcls _ _).1 hm,
          fun pre1 _ _ _ hlt => absurd hlt (by simp)⟩
      · rintro ⟨pre, tail, h, hocc, hleft⟩
        cases pre with
        | nil =>
          simp only [List.nil_append] at h
          subst h
          have := (matchAtHead_eq_some_iff cls hcls _ _).2 hocc
          rw [hm] at this
          simpa using this
        | cons a pre2 =>
          exact absurd ((matchAtHead_eq_some_iff cls hcls _ _).1 hm)
            (hleft [] (c :: rest) cap rfl (by simp))
    | none =>
      simp only
      rw [ih]
      have hnone := (matchAtHead_eq_none_iff cls hcls _).1 hm
      constructor
      · rintro ⟨pre, tail, h, hocc, hleft⟩
        refine ⟨c :: pre, tail, by rw [h]; rfl, hocc, ?_⟩
        intro pre1 tail1 D1 h1 hlt
        cases pre1 with
        | nil =>
          simp only [List.nil_append] at h1
          subst h1
          exact hnone D1
        | cons a pre2 =>
          simp only [List.cons_append, List.cons.injEq] at h1
          exact hleft pre2 tail1 D1 h1.2 (by simpa using hlt)
      · rintro ⟨pre, tail, h, hocc, hleft⟩
        cases pre with
        | nil =>
          simp only [List.nil_append] at h
          subst h
          exact absurd hocc (hnone D)
        | cons a pre2 =>
          simp only [List.cons_append, List.cons.injEq] at h
          refine ⟨pre2, tail, h.2, hocc, ?_⟩
          intro pre1 tail1 D1 h1 hlt
          exact hleft (a :: pre1) tail1 D1 (by rw [h.1, h1]; rfl) (by simpa using hlt)

/-- The search fails exactly when the pattern occurs nowhere. -/
theorem reMatchGroup_eq_none_iff (cls : Char → Bool) (hcls : cls '<' = false) (s : Str) :
    reMatchGroup cls s = none ↔
      ∀ pre tail D, s = pre ++ tail → ¬ OccursAtHead cls D tail := by
  induction s with
  | nil =>
    simp only [reMatchGroup, true_iff]
    rintro pre tail D h ⟨_, _, post, h3⟩
    subst h3
    simp at h
  | cons c rest ih =>
    rw [reMatchGroup]
    cases hm : matchAtHead cls (c :: rest) with
    | some cap =>
      refine ⟨fun h => absurd h (by simp), fun h => ?_⟩
      exact absurd ((matchAtHead_eq_some_iff cls hcls _ _).1 hm) (h [] (c :: rest) cap rfl)
    | none =>
      simp only
      rw [ih]
      have hnone := (matchAtHead_eq_none_iff cls hcls _).1 hm
      constructor
      · intro h pre tail D hs
        cases pre with
        | nil =>
          simp only [List.nil_append] at hs
          subst hs
          exact hnone D
        | cons a pre2 =>
          simp only [List.cons_append, List.cons.injEq] at hs
          exact h pre2 tail D hs.2
      · intro h pre tail D hs
        exact h (c :: pre) tail D (by rw [hs]; rfl)

/-! ## Claims C7, C8: the extraction patterns -/

/-- C7, as stated, fails: the empty string contains no `<`, yet
`extractRiderName` of `><` is `><` itself and not the empty string (the group
`[^<]+` needs at least one character). -/
theorem extractRiderName_empty_name_not_extracted :
    ¬ ∀ X : Str, '<' ∉ X → extractRiderName (">".toList ++ X ++ "<".toList) = X := by
  intro h
  exact absurd (h [] (by simp)) (by decide)

/-- C7, amended: for every non-empty string `X` that contains no `<`,
`extractRiderName` applied to `">" ++ X ++ "<"` returns exactly `X`. -/
theorem extractRiderName_wrapped (X : Str) (hne : X ≠ []) (hX : '<' ∉ X) :
    extractRiderName (">".toList ++ X ++ "<".toList) = X := by
  have hocc : OccursAtHead notLt X (">".toList ++ X ++ "<".toList) := by
    refine ⟨hne, ?_, [], by simp⟩
    intro c hc
    rw [notLt_iff]
    rintro rfl
    exact hX hc
  have hm : reMatchGroup notLt (">".toList ++ X ++ "<".toList) = some X :=
    (reMatchGroup_eq_some_iff notLt (by decide) _ _).2
      ⟨[], _, rfl, hocc, fun pre1 _ _ _ hlt => absurd hlt (by simp)⟩
  simp only [extractRiderName, hm]

/-- Witness for C7: the wrapped name `>Jane Doe<`. -/
theorem extractRiderName_wrapped_witness :
    "Jane Doe".toList ≠ [] ∧ '<' ∉ "Jane Doe".toList ∧
    extractRiderName (">".toList ++ "Jane Doe".toList ++ "<".toList) = "Jane Doe".toList :=
  ⟨by decide, by decide, extractRiderName_wrapped "Jane Doe".toList (by decide) (by decide)⟩

/-- C8: if `s` contains an occurrence of `>`, a non-empty run of ASCII digits
and `<` in a row, then there is a leftmost such occurrence (one with the
shortest text before it) and `extractClassNumber s` is its digit run; the digit
run of any leftmost occurrence is the result; and if `s` contains no such
occurrence, `extractClassNumber s` is `s` unchanged. -/
theorem extractClassNumber_spec (s : Str) :
    ((∃ pre D post, DigitOccurrence s pre D post) →
      ∃ pre0 D0 post0, DigitOccurrence s pre0 D0 post0 ∧
        (∀ pre1 D1 post1, DigitOccurrence s pre1 D1 post1 → pre0.length ≤ pre1.length) ∧
        extractClassNumber s = D0) ∧
    (∀ pre D post, DigitOccurrence s pre D post →
        (∀ pre1 D1 post1, DigitOccurrence s pre1 D1 post1 → pre.length ≤ pre1.length) →
        extractClassNumber s = D) ∧
    ((∀ pre D post, ¬ DigitOccurrence s pre D post) → extractClassNumber s = s) := by
  refine ⟨?_, ?_, ?_⟩
  · rintro ⟨pre, D, post, hs, hne, hD⟩
    cases hm : reMatchGroup isDigit s with
    | none =>
      exact absurd ⟨hne, fun c hc => (isDigit_iff c).2 (hD c hc), post, rfl⟩
        ((reMatchGroup_eq_none_iff isDigit (by decide) s).1 hm pre _ D hs)
    | some D0 =>
      obtain ⟨pre0, tail0, hs0, ⟨hne0, hD0, post0, rfl⟩, hleft⟩ :=
        (reMatchGroup_eq_some_iff isDigit (by decide) s D0).1 hm
      refine ⟨pre0, D0, post0, ⟨hs0, hne0, fun c hc => (isDigit_iff c).1 (hD0 c hc)⟩, ?_, ?_⟩
      · rintro pre1 D1 post1 ⟨hs1, hne1, hD1⟩
        by_contra hlt
        exact hleft pre1 _ D1 hs1 (by omega)
          ⟨hne1, fun c hc => (isDigit_iff c).2 (hD1 c hc), post1, rfl⟩
      · simp only [extractClassNumber, hm]
  · rintro pre D post ⟨hs, hne, hD⟩ hleft
    have hm : reMatchGroup isDigit s = some D := by
      refine (reMatchGroup_eq_some_iff isDigit (by decide) _ _).2
        ⟨pre, _, hs, ⟨hne, fun c hc => (isDigit_iff c).2 (hD c hc), post, rfl⟩, ?_⟩
      rintro pre1 tail1 D1 hs1 hlt ⟨hne1, hD1, post1, rfl⟩
      have := hleft pre1 D1 post1 ⟨hs1, hne1, fun c hc => (isDigit_iff c).1 (hD1 c hc)⟩
      omega
    simp only [extractClassNumber, hm]
  · intro hno
    have hm : reMatchGroup isDigit s = none := by
      refine (reMatchGroup_eq_none_iff isDigit (by decide) _).2 ?_
      rintro pre tail D hs ⟨hne, hD, post, rfl⟩
      exact hno pre D post ⟨hs, hne, fun c hc => (isDigit_iff c).1 (hD c hc)⟩
    simp only [extractClassNumber, hm]

/-- Witness for C8: in `<td>12<` the only occurrence starts after `<td`; the
text `n/a` has none. -/
theorem extractClassNumber_spec_witness :
    DigitOccurrence "<td>12<".toList "<td".toList "12".toList [] ∧
    extractClassNumber "<td>12<".toList = "12".toList ∧
    extractClassNumber "n/a".toList = "n/a".toList := by
  have hocc : DigitOccurrence "<td>12<".toList "<td".toList "12".toList [] :=
    ⟨by decide, by decide, by decide⟩
  refine ⟨hocc, (extractClassNumber_spec "<td>12<".toList).2.1 _ _ _ hocc ?_,
    (extractClassNumber_spec "n/a".toList).2.2 ?_⟩
  · rintro pre1 D1 post1 ⟨hs, -, -⟩
    have hs1 : ['<', 't', 'd', '>', '1', '2', '<'] = pre1 ++ '>' :: (D1 ++ '<' :: post1) := hs
    rcases pre1 with _ | ⟨a, _ | ⟨b, _ | ⟨c, rest⟩⟩⟩
    · simp at hs1
    · simp at hs1
    · simp at hs1
    · simp
  · rintro pre D post ⟨hs, -, -⟩
    have hmem : '>' ∈ "n/a".toList := by rw [hs]; simp
    exact absurd hmem (by decide)

/-! ## Lemmas: the lookup object -/

theorem JSObject.get_set {α : Type} (obj : JSObject α) (k k1 : Str) (v : α) :
    JSObject.get (JSObject.set obj k v) k1
      = if k = k1 then some v else JSObject.get obj k1 := by
  induction obj with
  | nil => simp [JSObject.set, JSObject.get]
  | cons kv rest ih =>
    obtain ⟨k0, v0⟩ := kv
    by_cases h0 : k0 = k
    · subst h0
      by_cases h1 : k0 = k1 <;> simp [JSObject.set, JSObject.get, h1]
    · by_cases h1 : k0 = k1
      · subst h1
        have hk : ¬ k = k0 := fun h => h0 h.symm
        simp [JSObject.set, JSObject.get, h0, hk]
      · simp [JSObject.set, JSObject.get, h0, h1, ih]

/-- Records stored under other keys leave the property at `k` as it was. -/
theorem foldl_set_get_of_no_key (records : List ClassRecord) (k : Str)
    (acc : JSObject ClassRecord) (h : ∀ r ∈ records, r.classID ≠ k) :
    JSObject.get (records.foldl (fun lookup cls => JSObject.set lookup cls.classID cls) acc) k
      = JSObject.get acc k := by
  induction records generalizing acc with
  | nil => rfl
  | cons r rest ih =>
    rw [List.foldl_cons, ih _ (fun x hx => h x (List.mem_cons_of_mem _ hx)), JSObject.get_set,
      if_neg (h r (by simp))]

/-- After the fold, the property at `k` is the last record stored under `k`. -/
theorem foldl_set_get_of_last (pre post : List ClassRecord) (r : ClassRecord) (k : Str)
    (acc : JSObject ClassRecord) (hk : r.classID = k) (h : ∀ x ∈ post, x.classID ≠ k) :
    JSObject.get
        ((pre ++ r :: post).foldl (fun lookup cls => JSObject.set lookup cls.classID cls) acc) k
      = some r := by
  rw [List.foldl_append, List.foldl_cons, foldl_set_get_of_no_key post k _ h, JSObject.get_set,
    if_pos hk]

/-- Among the records stored under `k`, one is the last. -/
theorem exists_last_with_key (records : List ClassRecord) (k : Str)
    (h : ∃ r ∈ records, r.classID = k) :
    ∃ pre r post, records = pre ++ r :: post ∧ r.classID = k ∧ ∀ x ∈ post, x.classID ≠ k := by
  induction records with
  | nil => simp at h
  | cons a rest ih =>
    by_cases hrest : ∃ r ∈ rest, r.classID = k
    · obtain ⟨pre, r, post, hs, hk, hpost⟩ := ih hrest
      exact ⟨a :: pre, r, post, by rw [hs]; rfl, hk, hpost⟩
    · obtain ⟨r, hr, hk⟩ := h
      rcases List.mem_cons.1 hr with rfl | hr
      · exact ⟨[], r, rest, rfl, hk, fun x hx hxk => hrest ⟨x, hx, hxk⟩⟩
      · exact absurd ⟨r, hr, hk⟩ hrest

/-! ## Claim C9: the class lookup -/

/-- C9: the map returned by `buildClassLookup` holds the record `r` at `k`
exactly when `r` is the last record of the list whose classID is `k`; it holds
nothing at `k` exactly when no record has that classID; and it is empty for the
empty list. -/
theorem buildClassLookup_last_write_wins (records : List ClassRecord) (k : Str) :
    (∀ r, JSObject.get (buildClassLookup (.object (.array records))) k = some r ↔
        ∃ pre post, records = pre ++ r :: post ∧ r.classID = k ∧
          ∀ x ∈ post, x.classID ≠ k) ∧
    (JSObject.get (buildClassLookup (.object (.array records))) k = none ↔
        ∀ r ∈ records, r.classID ≠ k) ∧
    buildClassLookup (.object (.array [])) = [] := by
  have hlast : ∀ pre r post, records = pre ++ r :: post → r.classID = k →
      (∀ x ∈ post, x.classID ≠ k) →
      JSObject.get (buildClassLookup (.object (.array records))) k = some r := by
    rintro pre r post rfl hk hpost
    exact foldl_set_get_of_last pre post r k [] hk hpost
  have hnone : (∀ r ∈ records, r.classID ≠ k) →
      JSObject.get (buildClassLookup (.object (.array records))) k = none :=
    fun h => foldl_set_get_of_no_key records k [] h
  refine ⟨?_, ?_, rfl⟩
  · intro r
    constructor
    · intro hget
      by_cases hex : ∃ x ∈ records, x.classID = k
      · obtain ⟨pre, r0, post, hs, hk, hpost⟩ := exists_last_with_key records k hex
        have h0 := hlast pre r0 post hs hk hpost
        rw [hget, Option.some.injEq] at h0
        subst h0
        exact ⟨pre, post, hs, hk, hpost⟩
      · rw [hnone (fun x hx hxk => hex ⟨x, hx, hxk⟩)] at hget
        exact absurd hget (by simp)
    · rintro ⟨pre, post, hs, hk, hpost⟩
      exact hlast pre r post hs hk hpost
  · constructor
    · intro hget r hr hk
      obtain ⟨pre, r0, post, hs, hk0, hpost⟩ := exists_last_with_key records k ⟨r, hr, hk⟩
      rw [hlast pre r0 post hs hk0 hpost] at hget
      exact absurd hget (by simp)
    · exact hnone

/-- Witness for C9: class 1 is recorded twice, class 3 never. -/
theorem buildClassLookup_last_write_wins_witness :
    JSObject.get (buildClassLookup (.object (.array
        [⟨"1".toList, "Hunter".toList⟩, ⟨"2".toList, "Jumper".toList⟩,
         ⟨"1".toList, "Derby".toList⟩]))) "1".toList
      = some ⟨"1".toList, "Derby".toList⟩ ∧
    JSObject.get (buildClassLookup (.object (.array
        [⟨"1".toList, "Hunter".toList⟩, ⟨"2".toList, "Jumper".toList⟩,
         ⟨"1".toList, "Derby".toList⟩]))) "3".toList
      = none :=
  ⟨((buildClassLookup_last_write_wins _ "1".toList).1 ⟨"1".toList, "Derby".toList⟩).2
      ⟨[⟨"1".toList, "Hunter".toList⟩, ⟨"2".toList, "Jumper".toList⟩], [], rfl, rfl, by simp⟩,
   (buildClassLookup_last_write_wins _ "3".toList).2.1.2 (by decide)⟩

/-! ## Lemmas: the rider matcher -/

theorem nameMatches_iff (t : Str) (r : RosterEntry) :
    nameMatches t r = true ↔ NamesContain t r := by
  simp only [nameMatches, NamesContain, Bool.or_eq_true, includes_iff]

/-- The rider a target name is matched to: the first roster entry that
`nameMatches` accepts, with the cleaned name and the target name. -/
theorem findRidersStep_eq (roster : List RosterEntry) (acc : List MatchedRider) (t : Str) :
    findRidersStep roster acc t
      = acc ++ ((roster.find? (nameMatches t)).map
          (fun r => (⟨r.riderID, extractRiderName r.riderName, t⟩ : MatchedRider))).toList := by
  unfold findRidersStep
  cases roster.find? (nameMatches t) <;> simp

theorem foldl_findRidersStep (roster : List RosterEntry) (targets : List Str)
    (acc : List MatchedRider) :
    targets.foldl (findRidersStep roster) acc
      = acc ++ targets.filterMap (fun t => (roster.find? (nameMatches t)).map
          (fun r => (⟨r.riderID, extractRiderName r.riderName, t⟩ : MatchedRider))) := by
  induction targets generalizing acc with
  | nil => simp
  | cons t rest ih =>
    rw [List.foldl_cons, ih, findRidersStep_eq]
    cases h : roster.find? (nameMatches t) <;> simp [List.filterMap_cons, h]

theorem findRidersByNames_eq_filterMap (roster : List RosterEntry) (targets : List Str) :
    findRidersByNames (.object (.array roster)) targets
      = targets.filterMap (fun t => (roster.find? (nameMatches t)).map
          (fun r => (⟨r.riderID, extractRiderName r.riderName, t⟩ : MatchedRider))) := by
  simp [findRidersByNames, foldl_findRidersStep]

/-- The first entry of a roster that `nameMatches` accepts is what `find`
returns. -/
theorem find_nameMatches_of_first (t : Str) (pre post : List RosterEntry) (r : RosterEntry)
    (hr : NamesContain t r) (hpre : ∀ x ∈ pre, ¬ NamesContain t x) :
    (pre ++ r :: post).find? (nameMatches t) = some r := by
  rw [List.find?_eq_some]
  refine ⟨(nameMatches_iff t r).2 hr, pre, post, rfl, ?_⟩
  intro x hx
  have := hpre x hx
  rw [← nameMatches_iff] at this
  simpa using this

theorem find_nameMatches_of_none (t : Str) (roster : List RosterEntry)
    (h : ∀ r ∈ roster, ¬ NamesContain t r) :
    roster.find? (nameMatches t) = none := by
  rw [List.find?_eq_none]
  intro x hx
  rw [nameMatches_iff]
  exact h x hx

/-! ## Claim C3: the rider matcher -/

/-- C3: on a well-formed roster, `findRidersByNames` returns, in target-name
order, what `pick` gives for each target name, where `pick t` is nothing exactly
when no roster entry's cleaned name contains `t` or is contained in `t`, and is
otherwise the MatchedRider that carries the riderID and cleaned name of the
first such roster entry and `t` as originalName.  The two examples of the
specification are the last two conjuncts. -/
theorem findRidersByNames_spec (roster : List RosterEntry) (targetNames : List Str) :
    (∃ pick : Str → Option MatchedRider,
      findRidersByNames (.object (.array roster)) targetNames = targetNames.filterMap pick ∧
      (∀ t, pick t = none ↔ ∀ r ∈ roster, ¬ NamesContain t r) ∧
      (∀ t m, pick t = some m ↔
        ∃ pre r post, roster = pre ++ r :: post ∧ NamesContain t r ∧
          (∀ x ∈ pre, ¬ NamesContain t x) ∧
          m = ⟨r.riderID, extractRiderName r.riderName, t⟩)) ∧
    findRidersByNames (.object (.array [⟨1, ">Jane Doe<".toList⟩])) ["Jane".toList]
      = [⟨1, "Jane Doe".toList, "Jane".toList⟩] ∧
    findRidersByNames (.object (.array [⟨1, ">Jane Doe<".toList⟩])) ["Zed".toList] = [] := by
  refine ⟨⟨_, findRidersByNames_eq_filterMap roster targetNames, ?_, ?_⟩, by decide, by decide⟩
  · intro t
    constructor
    · intro h r hr hcontain
      cases hf : roster.find? (nameMatches t) with
      | none =>
        have := List.find?_eq_none.1 hf r hr
        exact this ((nameMatches_iff t r).2 hcontain)
      | some r0 => simp [hf] at h
    · intro h
      simp only [find_nameMatches_of_none t roster h, Option.map_none']
  · intro t m
    constructor
    · intro h
      cases hf : roster.find? (nameMatches t) with
      | none => simp [hf] at h
      | some r =>
        simp only [hf, Option.map_some', Option.some.injEq] at h
        obtain ⟨hr, pre, post, hs, hpre⟩ := List.find?_eq_some.1 hf
        refine ⟨pre, r, post, hs, (nameMatches_iff t r).1 hr, ?_, h.symm⟩
        intro x hx hcontain
        have := hpre x hx
        rw [(nameMatches_iff t x).2 hcontain] at this
        exact absurd this (by simp)
    · rintro ⟨pre, r, post, rfl, hr, hpre, rfl⟩
      simp only [find_nameMatches_of_first t pre post r hr hpre, Option.map_some']

/-! ## Lemmas: the schedule assembler -/

/-- The push loop of `extractRiderSchedule` builds one row per entry, in
order. -/
theorem foldl_push_rows (f : RawScheduleEntry → ScheduleRow) (entries : List RawScheduleEntry)
    (acc : List ScheduleRow) :
    entries.foldl (fun schedule entry => schedule ++ [f entry]) acc = acc ++ entries.map f := by
  induction entries generalizing acc with
  | nil => simp
  | cons e rest ih => rw [List.foldl_cons, ih]; simp

theorem extractRiderSchedule_array (env : DateEnv) (m : MatchedRider)
    (entries : List RawScheduleEntry) (L : JSObject ClassRecord) (M : List (Str × Str)) :
    extractRiderSchedule env m (.object (.array entries)) L M
      = .ok (entries.map (scheduleRowOf env m L M)) := by
  simp [extractRiderSchedule, foldl_push_rows]

/-- Every row of a schedule, whatever the payload, is the row of some raw
entry. -/
theorem extractRiderSchedule_row (env : DateEnv) (m : MatchedRider)
    (rawData : Payload RawScheduleEntry) (L : JSObject ClassRecord) (M : List (Str × Str))
    (rows : List ScheduleRow) (h : extractRiderSchedule env m rawData L M = .ok rows)
    (row : ScheduleRow) (hrow : row ∈ rows) :
    ∃ entry, row = scheduleRowOf env m L M entry := by
  cases rawData with
  | null => simp [extractRiderSchedule] at h
  | text body =>
    simp only [extractRiderSchedule, Except.ok.injEq] at h
    subst h
    simp at hrow
  | object field =>
    cases field with
    | absent =>
      simp only [extractRiderSchedule, Except.ok.injEq] at h
      subst h
      simp at hrow
    | nonArray =>
      simp only [extractRiderSchedule, Except.ok.injEq] at h
      subst h
      simp at hrow
    | array entries =>
      rw [extractRiderSchedule_array, Except.ok.injEq] at h
      subst h
      obtain ⟨e, -, he⟩ := List.mem_map.1 hrow
      exact ⟨e, he.symm⟩

/-- Only a `null` payload makes `extractRiderSchedule` throw. -/
theorem extractRiderSchedule_ok_of_ne_null (env : DateEnv) (m : MatchedRider)
    (rawData : Payload RawScheduleEntry) (L : JSObject ClassRecord) (M : List (Str × Str))
    (h : rawData ≠ .null) : ∃ rows, extractRiderSchedule env m rawData L M = .ok rows := by
  cases rawData with
  | null => exact absurd rfl h
  | text body => exact ⟨[], rfl⟩
  | object field =>
    cases field with
    | absent => exact ⟨[], rfl⟩
    | nonArray => exact ⟨[], rfl⟩
    | array entries => exact ⟨_, extractRiderSchedule_array env m entries L M⟩

/-- A matched rider carries one of the target names as its originalName. -/
theorem originalName_mem_of_mem_findRidersByNames (riderData : Payload RosterEntry)
    (targetNames : List Str) (m : MatchedRider)
    (hm : m ∈ findRidersByNames riderData targetNames) : m.originalName ∈ targetNames := by
  cases riderData with
  | null => simp [findRidersByNames] at hm
  | text body => simp [findRidersByNames] at hm
  | object field =>
    cases field with
    | absent => simp [findRidersByNames] at hm
    | nonArray => simp [findRidersByNames] at hm
    | array roster =>
      rw [findRidersByNames_eq_filterMap, List.mem_filterMap] at hm
      obtain ⟨t, ht, hpick⟩ := hm
      cases hf : roster.find? (nameMatches t) with
      | none => simp [hf] at hpick
      | some r =>
        simp only [hf, Option.map_some', Option.some.injEq] at hpick
        subst hpick
        exact ht

theorem scheduleLoopBody_eq_append (w : World) (showId : Nat) (L : JSObject ClassRecord)
    (M : List (Str × Str)) (callNo : Nat) (acc : List ScheduleRow) (r : MatchedRider) :
    scheduleLoopBody w showId L M callNo acc r
      = acc ++ scheduleLoopBody w showId L M callNo [] r := by
  unfold scheduleLoopBody
  cases hf : w.fetchSchedule callNo showId r.riderID with
  | error e => simp
  | ok p =>
    cases hx : extractRiderSchedule w.dates r p L M with
    | error e => simp [hx]
    | ok rows => simp [hx]

/-- The loop appends, rider after rider, what the body adds for each. -/
theorem scheduleLoop_eq_flatten (w : World) (showId : Nat) (L : JSObject ClassRecord)
    (M : List (Str × Str)) (callNo : Nat) (riders : List MatchedRider)
    (acc : List ScheduleRow) :
    scheduleLoop w showId L M callNo riders acc
      = acc ++ ((riders.enumFrom callNo).map
          (fun ir => scheduleLoopBody w showId L M ir.1 [] ir.2)).flatten := by
  induction riders generalizing callNo acc with
  | nil => simp [scheduleLoop]
  | cons r rest ih =>
    rw [scheduleLoop, ih, scheduleLoopBody_eq_append]
    simp [List.enumFrom_cons, List.append_assoc]

/-- The result of `parseRiders` once the roster has been fetched and is not
`null`. -/
theorem parseRiders_eq_flatten (w : World) (riderData : Payload RosterEntry)
    (hroster : w.fetchRoster (effectiveShowId (loadConfig w)) = .ok riderData)
    (hnn : riderData ≠ .null) :
    parseRiders w = .ok
      (((findRidersByNames riderData (effectiveRiderNames (loadConfig w))).enumFrom 0).map
        (fun ir => scheduleLoopBody w (effectiveShowId (loadConfig w))
          (buildClassLookup (fetchClassData w (effectiveShowId (loadConfig w))))
          (effectiveClassMapping (loadConfig w)) ir.1 [] ir.2)).flatten := by
  unfold parseRiders
  simp only [fetchRiderData, hroster]
  by_cases hn : (effectiveRiderNames (loadConfig w)).length = 0
  · have hnil : effectiveRiderNames (loadConfig w) = [] := List.length_eq_zero.1 hn
    have hfound : findRidersByNames riderData [] = [] := by
      cases riderData with
      | null => rfl
      | text body => rfl
      | object field => cases field <;> rfl
    simp [hnil, hfound]
  · rw [if_neg hn]
    cases riderData with
    | null => exact absurd rfl hnn
    | text body => simp [findRidersByNames]
    | object field =>
      split
      · next h0 =>
        rw [List.length_eq_zero.1 h0]
        simp
      · rw [scheduleLoop_eq_flatten]
        simp

/-! ## Claims C4, C5: the rows of one rider -/

/-- C4, as stated, fails: the target name `Jane` is matched to the roster entry
`>Jane Doe<`, whose cleaned name is `Jane Doe`; the row built for that matched
rider has rider_name `Jane` (the target name), not `Jane Doe`. -/
theorem extractRiderSchedule_rider_name_not_clean_name :
    ¬ ∀ (env : DateEnv) (riderData : Payload RosterEntry) (targetNames : List Str)
        (rawData : Payload RawScheduleEntry) (L : JSObject ClassRecord) (M : List (Str × Str))
        (m : MatchedRider) (rows : List ScheduleRow) (row : ScheduleRow),
        m ∈ findRidersByNames riderData targetNames →
        extractRiderSchedule env m rawData L M = .ok rows →
        row ∈ rows → row.rider_name = m.riderName := by
  intro h
  have hrow := h sampleDates (.object (.array [⟨1, ">Jane Doe<".toList⟩])) ["Jane".toList]
    (.object (.array sampleEntries)) [] []
    ⟨1, "Jane Doe".toList, "Jane".toList⟩ _
    (scheduleRowOf sampleDates ⟨1, "Jane Doe".toList, "Jane".toList⟩ [] []
      ⟨"<a href=c>15</a>".toList, none, "Ring 2".toList, "2024-06-01".toList,
        "2024-06-01T11:00:00".toList⟩)
    (by decide) (extractRiderSchedule_array _ _ _ _ _) (by simp [sampleEntries])
  exact absurd hrow (by decide)

/-- C4, amended: for every matched rider `m` produced by `findRidersByNames` and
every raw schedule payload, every row that `extractRiderSchedule` produces for
`m` has rider_name equal to `m.originalName`, the target name the rider was
matched for (one of the target names); rows are produced for every payload but
`null`. -/
theorem extractRiderSchedule_rider_name (env : DateEnv) (riderData : Payload RosterEntry)
    (targetNames : List Str) (rawData : Payload RawScheduleEntry)
    (L : JSObject ClassRecord) (M : List (Str × Str)) (m : MatchedRider)
    (hm : m ∈ findRidersByNames riderData targetNames) :
    m.originalName ∈ targetNames ∧
    (rawData ≠ .null → ∃ rows, extractRiderSchedule env m rawData L M = .ok rows) ∧
    ∀ rows, extractRiderSchedule env m rawData L M = .ok rows →
      ∀ row ∈ rows, row.rider_name = m.originalName := by
  refine ⟨originalName_mem_of_mem_findRidersByNames riderData targetNames m hm,
    extractRiderSchedule_ok_of_ne_null env m rawData L M, ?_⟩
  intro rows hrows row hrow
  obtain ⟨e, rfl⟩ := extractRiderSchedule_row env m rawData L M rows hrows row hrow
  rfl

/-- Witness for C4: the rider matched for the target name `Jane` and a schedule
of two entries; both rows are named `Jane`. -/
theorem extractRiderSchedule_rider_name_witness :
    (⟨1, "Jane Doe".toList, "Jane".toList⟩ : MatchedRider)
      ∈ findRidersByNames (.object (.array [⟨1, ">Jane Doe<".toList⟩])) ["Jane".toList] ∧
    (∃ rows, extractRiderSchedule sampleDates ⟨1, "Jane Doe".toList, "Jane".toList⟩
        (.object (.array sampleEntries)) [] [] = .ok rows ∧ rows.length = 2 ∧
        ∀ row ∈ rows, row.rider_name = "Jane".toList) := by
  have hm : (⟨1, "Jane Doe".toList, "Jane".toList⟩ : MatchedRider)
      ∈ findRidersByNames (.object (.array [⟨1, ">Jane Doe<".toList⟩])) ["Jane".toList] := by
    decide
  have h := extractRiderSchedule_rider_name sampleDates _ _ (.object (.array sampleEntries))
    [] [] _ hm
  refine ⟨hm, _, extractRiderSchedule_array _ _ _ _ _, rfl, ?_⟩
  exact h.2.2 _ (extractRiderSchedule_array _ _ _ _ _)

/-- C5: for every matched rider and every payload whose riderPageData is an
array of n entries, `extractRiderSchedule` returns exactly n rows, the i-th row
being the one built from the i-th raw entry, and every row has rider_id equal
to the matched rider's riderID. -/
theorem extractRiderSchedule_rows (env : DateEnv) (m : MatchedRider)
    (entries : List RawScheduleEntry) (L : JSObject ClassRecord) (M : List (Str × Str)) :
    ∃ rows, extractRiderSchedule env m (.object (.array entries)) L M = .ok rows ∧
      rows.length = entries.length ∧
      (∀ (i : Nat) (entry : RawScheduleEntry), entries[i]? = some entry →
        rows[i]? = some
          ({ rider_name := m.originalName,
             rider_id := m.riderID,
             class_ := formatClassString (extractClassNumber entry.classText) entry.test L M,
             ring := normalizeRingName entry.ring,
             day := getFrenchDay env entry.day,
             time := formatTime env entry.rideTime } : ScheduleRow)) ∧
      ∀ row ∈ rows, row.rider_id = m.riderID := by
  refine ⟨_, extractRiderSchedule_array env m entries L M, by simp, ?_, ?_⟩
  · intro i entry h
    simp [h, scheduleRowOf]
  · intro row hrow
    obtain ⟨e, -, rfl⟩ := List.mem_map.1 hrow
    rfl

/-! ## Claim C6: failure isolation in the per-rider loop -/

/-- C6: once the roster has been fetched (and is not `null`), `parseRiders`
completes with `ok`, and its result is the concatenation, in match order, of one
contribution per matched rider: no row when the rider's schedule fetch failed,
the rows of `extractRiderSchedule` when the fetch succeeded (no row when the
fetched payload is `null`, on which `extractRiderSchedule` throws inside the
`try`).  Target names without a match are absent from `found` and so contribute
nothing. -/
theorem parseRiders_failure_isolation (w : World) (riderData : Payload RosterEntry)
    (showId : Nat) (names : List Str) (M : List (Str × Str)) (L : JSObject ClassRecord)
    (found : List MatchedRider)
    (hshow : showId = effectiveShowId (loadConfig w))
    (hnames : names = effectiveRiderNames (loadConfig w))
    (hM : M = effectiveClassMapping (loadConfig w))
    (hL : L = buildClassLookup (fetchClassData w showId))
    (hfound : found = findRidersByNames riderData names)
    (hroster : w.fetchRoster showId = .ok riderData) (hnn : riderData ≠ .null) :
    ∃ contrib : List (List ScheduleRow),
      parseRiders w = .ok contrib.flatten ∧
      contrib.length = found.length ∧
      ∀ (i : Nat) (r : MatchedRider), found[i]? = some r →
        (∀ e, w.fetchSchedule i showId r.riderID = .error e → contrib[i]? = some []) ∧
        (∀ p rows, w.fetchSchedule i showId r.riderID = .ok p →
          extractRiderSchedule w.dates r p L M = .ok rows → contrib[i]? = some rows) ∧
        (∀ p e, w.fetchSchedule i showId r.riderID = .ok p →
          extractRiderSchedule w.dates r p L M = .error e → contrib[i]? = some []) := by
  subst hshow hnames hM hL hfound
  refine ⟨_, parseRiders_eq_flatten w riderData hroster hnn, by simp [List.enumFrom_length], ?_⟩
  intro i r hr
  have hget : ∀ f : Nat × MatchedRider → List ScheduleRow,
      (((findRidersByNames riderData (effectiveRiderNames (loadConfig w))).enumFrom 0).map f)[i]?
        = some (f (i, r)) := by
    intro f
    rw [List.getElem?_map, List.getElem?_enumFrom, hr]
    simp
  refine ⟨?_, ?_, ?_⟩
  · intro e he
    rw [hget]
    simp [scheduleLoopBody, he]
  · intro p rows hp hrows
    rw [hget]
    simp [scheduleLoopBody, hp, hrows]
  · intro p e hp he
    rw [hget]
    simp [scheduleLoopBody, hp, he]

/-- Witness for C6: in `sampleWorld` the schedule fetch of Ann (rider 1) fails
and that of Bob (rider 2) succeeds with two entries; the run completes with
Bob's two rows only. -/
theorem parseRiders_failure_isolation_witness :
    sampleWorld.fetchRoster 7
      = .ok (.object (.array [⟨1, ">Ann Archer<".toList⟩, ⟨2, ">Bob Baker<".toList⟩])) ∧
    ∃ contrib : List (List ScheduleRow),
      parseRiders sampleWorld = .ok contrib.flatten ∧
      contrib.length = 2 ∧
      contrib[0]? = some [] ∧
      contrib[1]? = some (sampleEntries.map
        (scheduleRowOf sampleDates ⟨2, "Bob Baker".toList, "Bob".toList⟩ [] [])) := by
  refine ⟨rfl, ?_⟩
  obtain ⟨contrib, hres, hlen, hcontrib⟩ :=
    parseRiders_failure_isolation sampleWorld
      (.object (.array [⟨1, ">Ann Archer<".toList⟩, ⟨2, ">Bob Baker<".toList⟩]))
      7 ["Ann".toList, "Bob".toList] [] []
      [⟨1, "Ann Archer".toList, "Ann".toList⟩, ⟨2, "Bob Baker".toList, "Bob".toList⟩]
      rfl rfl rfl rfl (by decide) rfl (by simp)
  refine ⟨contrib, hres, hlen, ?_, ?_⟩
  · exact (hcontrib 0 ⟨1, "Ann Archer".toList, "Ann".toList⟩ rfl).1
      (.fetchFailed "socket hang up".toList) rfl
  · exact (hcontrib 1 ⟨2, "Bob Baker".toList, "Bob".toList⟩ rfl).2.1
      (.object (.array sampleEntries)) _ rfl (extractRiderSchedule_array _ _ _ _ _)

/-! ## Lemmas: payloads without the expected shape -/

/-- On a payload without the expected shape `findRidersByNames` finds nobody. -/
theorem findRidersByNames_of_malformed (riderData : Payload RosterEntry)
    (targetNames : List Str) (h : Malformed riderData) :
    findRidersByNames riderData targetNames = [] := by
  cases riderData with
  | null => rfl
  | text body => rfl
  | object field =>
    cases field with
    | absent => rfl
    | nonArray => rfl
    | array items => exact absurd rfl (h items)

/-- On a payload without the expected shape `buildClassLookup` builds `{}`. -/
theorem buildClassLookup_of_malformed (classData : Payload ClassRecord)
    (h : Malformed classData) : buildClassLookup classData = [] := by
  cases classData with
  | null => rfl
  | text body => rfl
  | object field =>
    cases field with
    | absent => rfl
    | nonArray => rfl
    | array items => exact absurd rfl (h items)

/-- On a payload without the expected shape other than `null`,
`extractRiderSchedule` returns no row. -/
theorem extractRiderSchedule_of_malformed_ne_null (env : DateEnv) (m : MatchedRider)
    (rawData : Payload RawScheduleEntry) (L : JSObject ClassRecord) (M : List (Str × Str))
    (h : Malformed rawData) (hnn : rawData ≠ .null) :
    extractRiderSchedule env m rawData L M = .ok [] := by
  cases rawData with
  | null => exact absurd rfl hnn
  | text body => rfl
  | object field =>
    cases field with
    | absent => rfl
    | nonArray => rfl
    | array items => exact absurd rfl (h items)

/-- On a roster payload without the expected shape other than `null`,
`parseRiders` completes with the empty schedule. -/
theorem parseRiders_of_malformed_roster_ne_null (w : World) (riderData : Payload RosterEntry)
    (hroster : w.fetchRoster (effectiveShowId (loadConfig w)) = .ok riderData)
    (h : Malformed riderData) (hnn : riderData ≠ .null) :
    parseRiders w = .ok [] := by
  rw [parseRiders_eq_flatten w riderData hroster hnn, findRidersByNames_of_malformed _ _ h]
  rfl

/-- On a `null` roster payload `parseRiders` throws, whenever the configuration
names at least one rider. -/
theorem parseRiders_of_null_roster (w : World)
    (hroster : w.fetchRoster (effectiveShowId (loadConfig w)) = .ok .null)
    (hnames : effectiveRiderNames (loadConfig w) ≠ []) :
    parseRiders w = .error .typeError := by
  unfold parseRiders
  simp only [fetchRiderData, hroster]
  rw [if_neg (by simpa using hnames)]

/-- The command-line arguments do not reach `parseRiders`: two runs with
non-empty argument lists end alike. -/
theorem cliMain_args_ignored (w : World) (A B : List Str) (hA : A ≠ []) (hB : B ≠ []) :
    cliMain w A = cliMain w B := by
  cases A with
  | nil => exact absurd rfl hA
  | cons a A1 =>
    cases B with
    | nil => exact absurd rfl hB
    | cons b B1 => simp [cliMain]

/-! ## Claims C11, C12, C13 -/

/-- C11 (the code departs from the claim): the JSON value `null` is a payload
without the expected shape, yet `extractRiderSchedule` throws a `TypeError` on
it instead of returning an empty list, and `parseRiders` throws a `TypeError`
when the roster endpoint answers `null` instead of completing.  (For `null`,
`findRidersByNames` does return the empty list and `buildClassLookup` the empty
map.) -/
theorem null_payload_throws :
    Malformed (Payload.null : Payload RawScheduleEntry) ∧
    (∀ (env : DateEnv) (m : MatchedRider) (L : JSObject ClassRecord) (M : List (Str × Str)),
      extractRiderSchedule env m .null L M = .error .typeError) ∧
    Malformed (Payload.null : Payload RosterEntry) ∧
    nullRosterWorld.fetchRoster 7 = .ok .null ∧
    parseRiders nullRosterWorld = .error .typeError ∧
    (∀ targetNames, findRidersByNames .null targetNames = []) ∧
    buildClassLookup .null = [] := by
  refine ⟨fun items h => (by cases h), fun _ _ _ _ => rfl, fun items h => (by cases h),
    rfl, rfl, fun _ => rfl, rfl⟩

/-- C12 (the code departs from the claim): with a configuration that names no
rider and the command-line argument `Bob`, the run completes with an empty
schedule, whereas the run whose configuration has riderNames replaced by
`["Bob"]` writes the two rows of Bob: the argument is not used as rider names. -/
theorem cliMain_arguments_not_used :
    cliMain (withRiderNames sampleWorld []) ["Bob".toList]
      = { exitCode := 0, written := some [] } ∧
    cliMain (withRiderNames (withRiderNames sampleWorld []) ["Bob".toList]) []
      = { exitCode := 0,
          written := some (sampleEntries.map
            (scheduleRowOf sampleDates ⟨2, "Bob Baker".toList, "Bob".toList⟩ [] [])) } ∧
    cliMain (withRiderNames sampleWorld []) ["Bob".toList]
      ≠ cliMain (withRiderNames (withRiderNames sampleWorld []) ["Bob".toList]) [] := by
  refine ⟨by decide, by decide, by decide⟩

/-- C13: `normalizeRingName` maps `Combine Obstacle` to `Combiné` and every
other string to itself. -/
theorem normalizeRingName_spec :
    normalizeRingName "Combine Obstacle".toList = "Combiné".toList ∧
    ∀ r : Str, r ≠ "Combine Obstacle".toList → normalizeRingName r = r := by
  refine ⟨by decide, ?_⟩
  intro r hr
  rw [normalizeRingName, if_neg hr]

/-- Witness for C13: the ring `Ring 2`. -/
theorem normalizeRingName_spec_witness :
    "Ring 2".toList ≠ "Combine Obstacle".toList ∧
    normalizeRingName "Ring 2".toList = "Ring 2".toList :=
  ⟨by decide, normalizeRingName_spec.2 "Ring 2".toList (by decide)⟩

/-! ## Lemmas: occurrences of the name pattern -/

theorem forall_notLt_iff (X : Str) : (∀ c ∈ X, notLt c = true) ↔ '<' ∉ X := by
  constructor
  · intro h hmem
    exact absurd (h '<' hmem) (by decide)
  · intro h c hc
    rw [notLt_iff]
    rintro rfl
    exact h hc

/-- A character found at a position inside `pre` is a member of `pre`. -/
theorem mem_of_split_before (pre a pre1 b : Str) (c : Char)
    (h : pre ++ a = pre1 ++ c :: b) (hlt : pre1.length < pre.length) : c ∈ pre := by
  induction pre1 generalizing pre with
  | nil =>
    cases pre with
    | nil => simp at hlt
    | cons x pre2 =>
      simp only [List.cons_append, List.nil_append, List.cons.injEq] at h
      rw [h.1]
      simp
  | cons y pre3 ih =>
    cases pre with
    | nil => simp at hlt
    | cons x pre2 =>
      simp only [List.cons_append, List.cons.injEq] at h
      exact List.mem_cons_of_mem _ (ih pre2 h.2 (by simpa using hlt))

/-- The capture of the name pattern never matches the pattern again. -/
theorem reMatchGroup_notLt_of_no_lt (X : Str) (hX : '<' ∉ X) :
    reMatchGroup notLt X = none := by
  refine (reMatchGroup_eq_none_iff notLt (by decide) X).2 ?_
  rintro pre tail D hs ⟨-, -, post, rfl⟩
  exact hX (by rw [hs]; simp)

theorem extractRiderName_idem (s : Str) :
    extractRiderName (extractRiderName s) = extractRiderName s := by
  cases hm : reMatchGroup notLt s with
  | none => simp only [extractRiderName, hm]
  | some cap =>
    obtain ⟨pre, tail, -, ⟨-, hcap, -⟩, -⟩ :=
      (reMatchGroup_eq_some_iff notLt (by decide) s cap).1 hm
    have hnone := reMatchGroup_notLt_of_no_lt cap ((forall_notLt_iff cap).1 hcap)
    simp only [extractRiderName, hm, hnone]

/-- A matched rider comes from a roster entry: it carries the riderID and the
cleaned name of that entry. -/
theorem exists_entry_of_mem_findRidersByNames (riderData : Payload RosterEntry)
    (targetNames : List Str) (m : MatchedRider)
    (hm : m ∈ findRidersByNames riderData targetNames) :
    ∃ r : RosterEntry, m.riderID = r.riderID ∧ m.riderName = extractRiderName r.riderName := by
  cases riderData with
  | null => simp [findRidersByNames] at hm
  | text body => simp [findRidersByNames] at hm
  | object field =>
    cases field with
    | absent => simp [findRidersByNames] at hm
    | nonArray => simp [findRidersByNames] at hm
    | array roster =>
      rw [findRidersByNames_eq_filterMap, List.mem_filterMap] at hm
      obtain ⟨t, -, hpick⟩ := hm
      cases hf : roster.find? (nameMatches t) with
      | none => simp [hf] at hpick
      | some r =>
        simp only [hf, Option.map_some', Option.some.injEq] at hpick
        subst hpick
        exact ⟨r, rfl, rfl⟩

/-! ## Claims C14, C15, C18: the text normalizers -/

/-- C14, as stated, fails: in `><a>b<` the first `>` is followed at once by `<`,
so the text strictly between them is empty; `extractRiderName` returns `b`. -/
theorem extractRiderName_not_between_first_gt_and_next_lt :
    extractRiderName "><a>b<".toList = "b".toList ∧
    ¬ ∀ pre X post : Str, '>' ∉ pre → '<' ∉ X →
        extractRiderName (pre ++ '>' :: (X ++ '<' :: post)) = X := by
  refine ⟨by decide, fun h => ?_⟩
  exact absurd (h [] [] "a>b<".toList (by simp) (by simp)) (by decide)

/-- C14, amended: when the first `>` of `s` is followed by a non-empty run `X` of
characters other than `<` and then by `<`, `extractRiderName s` is `X`, the text
strictly between the first `>` and the next `<`; in general, when `s` holds an
occurrence of `>`, such a non-empty run and `<`, the result is the run of the
leftmost occurrence; when `s` holds no such occurrence, in particular when no
`>` of `s` is followed later by a `<`, the result is `s` unchanged. -/
theorem extractRiderName_spec (s : Str) :
    (∀ pre X post, s = pre ++ '>' :: (X ++ '<' :: post) → '>' ∉ pre → '<' ∉ X → X ≠ [] →
        extractRiderName s = X) ∧
    ((∃ pre X post, NameOccurrence s pre X post) →
      ∃ pre0 X0 post0, NameOccurrence s pre0 X0 post0 ∧
        (∀ pre1 X1 post1, NameOccurrence s pre1 X1 post1 → pre0.length ≤ pre1.length) ∧
        extractRiderName s = X0) ∧
    ((∀ pre X post, ¬ NameOccurrence s pre X post) → extractRiderName s = s) ∧
    ((∀ pre mid post, s ≠ pre ++ '>' :: (mid ++ '<' :: post)) → extractRiderName s = s) := by
  have hnone : (∀ pre X post, ¬ NameOccurrence s pre X post) → extractRiderName s = s := by
    intro hno
    have hm : reMatchGroup notLt s = none := by
      refine (reMatchGroup_eq_none_iff notLt (by decide) _).2 ?_
      rintro pre tail D hs ⟨hne, hD, post, rfl⟩
      exact hno pre D post ⟨hs, hne, (forall_notLt_iff D).1 hD⟩
    simp only [extractRiderName, hm]
  refine ⟨?_, ?_, hnone, ?_⟩
  · intro pre X post hs hpre hX hne
    have hm : reMatchGroup notLt s = some X := by
      refine (reMatchGroup_eq_some_iff notLt (by decide) _ _).2
        ⟨pre, _, hs, ⟨hne, (forall_notLt_iff X).2 hX, post, rfl⟩, ?_⟩
      rintro pre1 tail1 D1 hs1 hlt ⟨-, -, post1, rfl⟩
      exact hpre (mem_of_split_before pre _ pre1 _ '>' (hs.symm.trans hs1) hlt)
    simp only [extractRiderName, hm]
  · rintro ⟨pre, X, post, hs, hne, hX⟩
    cases hm : reMatchGroup notLt s with
    | none =>
      exact absurd ⟨hne, (forall_notLt_iff X).2 hX, post, rfl⟩
        ((reMatchGroup_eq_none_iff notLt (by decide) s).1 hm pre _ X hs)
    | some X0 =>
      obtain ⟨pre0, tail0, hs0, ⟨hne0, hX0, post0, rfl⟩, hleft⟩ :=
        (reMatchGroup_eq_some_iff notLt (by decide) s X0).1 hm
      refine ⟨pre0, X0, post0, ⟨hs0, hne0, (forall_notLt_iff X0).1 hX0⟩, ?_, ?_⟩
      · rintro pre1 X1 post1 ⟨hs1, hne1, hX1⟩
        by_contra hlt
        exact hleft pre1 _ X1 hs1 (by omega) ⟨hne1, (forall_notLt_iff X1).2 hX1, post1, rfl⟩
      · simp only [extractRiderName, hm]
  · intro hno
    exact hnone (fun pre X post h => hno pre X post h.1)

/-- Witness for C14: the anchor `<a href=x>Jane</a>`, whose first `>` is followed
by `Jane` and `<`, and the text `a>b`, where no `<` follows the `>`. -/
theorem extractRiderName_spec_witness :
    extractRiderName "<a href=x>Jane</a>".toList = "Jane".toList ∧
    extractRiderName "a>b".toList = "a>b".toList := by
  refine ⟨(extractRiderName_spec "<a href=x>Jane</a>".toList).1
      "<a href=x".toList "Jane".toList "/a>".toList (by decide) (by decide) (by decide)
      (by decide),
    (extractRiderName_spec "a>b".toList).2.2.2 ?_⟩
  intro pre mid post hs
  have hmem : '<' ∈ "a>b".toList := by rw [hs]; simp
  exact absurd hmem (by decide)

/-- C15: with `w` the English long weekday name that the date parser computes
for the input, `getFrenchDay` returns `Vendredi` when `w` is `Friday`, `Samedi`
when `w` is `Saturday`, `Dimanche` when `w` is `Sunday`, and `w` itself for every
other `w`; being a total function it fails on no weekday. -/
theorem getFrenchDay_spec (env : DateEnv) (dateString w : Str)
    (hw : w = env.weekdayLong dateString) :
    (w = "Friday".toList → getFrenchDay env dateString = "Vendredi".toList) ∧
    (w = "Saturday".toList → getFrenchDay env dateString = "Samedi".toList) ∧
    (w = "Sunday".toList → getFrenchDay env dateString = "Dimanche".toList) ∧
    (w ≠ "Friday".toList → w ≠ "Saturday".toList → w ≠ "Sunday".toList →
      getFrenchDay env dateString = w) := by
  subst hw
  refine ⟨?_, ?_, ?_, ?_⟩
  · intro h
    simp only [getFrenchDay, h]
    decide
  · intro h
    simp only [getFrenchDay, h]
    decide
  · intro h
    simp only [getFrenchDay, h]
    decide
  · intro h1 h2 h3
    simp only [getFrenchDay, dayMap, if_neg h1, if_neg h2, if_neg h3]

/-- Witness for C15: a host on which the date is a Saturday, and one on which it
is a Wednesday. -/
theorem getFrenchDay_spec_witness :
    getFrenchDay sampleDates "2024-06-01".toList = "Samedi".toList ∧
    getFrenchDay { weekdayLong := fun _ => "Wednesday".toList, timeString := fun _ => [] }
        "2024-06-05".toList = "Wednesday".toList :=
  ⟨(getFrenchDay_spec sampleDates "2024-06-01".toList "Saturday".toList rfl).2.1 rfl,
   (getFrenchDay_spec { weekdayLong := fun _ => "Wednesday".toList, timeString := fun _ => [] }
      "2024-06-05".toList "Wednesday".toList rfl).2.2.2 (by decide) (by decide) (by decide)⟩

/-- C18: `extractRiderName` is idempotent, and the riderName of every
MatchedRider returned by `findRidersByNames` is a fixed point of it. -/
theorem extractRiderName_idempotent :
    (∀ s : Str, extractRiderName (extractRiderName s) = extractRiderName s) ∧
    ∀ (riderData : Payload RosterEntry) (targetNames : List Str) (m : MatchedRider),
      m ∈ findRidersByNames riderData targetNames →
      extractRiderName m.riderName = m.riderName := by
  refine ⟨extractRiderName_idem, ?_⟩
  intro riderData targetNames m hm
  obtain ⟨r, -, hname⟩ := exists_entry_of_mem_findRidersByNames riderData targetNames m hm
  rw [hname, extractRiderName_idem]

/-- Witness for C18: the rider matched for `Jane` on the roster `>Jane Doe<`. -/
theorem extractRiderName_idempotent_witness :
    (⟨1, "Jane Doe".toList, "Jane".toList⟩ : MatchedRider)
      ∈ findRidersByNames (.object (.array [⟨1, ">Jane Doe<".toList⟩])) ["Jane".toList] ∧
    extractRiderName "Jane Doe".toList = "Jane Doe".toList :=
  ⟨by decide,
   extractRiderName_idempotent.2 (.object (.array [⟨1, ">Jane Doe<".toList⟩])) ["Jane".toList]
     ⟨1, "Jane Doe".toList, "Jane".toList⟩ (by decide)⟩

/-! ## Claims C16, C19: the matcher on several and on degenerate names -/

/-- C16: on a well-formed roster `findRidersByNames` distributes over the
concatenation of target lists; a target name repeated `k` times yields `k` times
what it yields once, so `k` identical MatchedRiders when it is matched; and two
different target names may yield the same roster entry (here `Jane` and `Doe`
both yield rider 1). -/
theorem findRidersByNames_append (roster : List RosterEntry) (A B : List Str) :
    findRidersByNames (.object (.array roster)) (A ++ B)
      = findRidersByNames (.object (.array roster)) A
          ++ findRidersByNames (.object (.array roster)) B ∧
    (∀ (k : Nat) (t : Str),
      findRidersByNames (.object (.array roster)) (List.replicate k t)
        = (List.replicate k (findRidersByNames (.object (.array roster)) [t])).flatten) ∧
    (∀ (k : Nat) (t : Str) (m : MatchedRider),
      findRidersByNames (.object (.array roster)) [t] = [m] →
      findRidersByNames (.object (.array roster)) (List.replicate k t) = List.replicate k m) ∧
    findRidersByNames (.object (.array [⟨1, ">Jane Doe<".toList⟩])) ["Jane".toList, "Doe".toList]
      = [⟨1, "Jane Doe".toList, "Jane".toList⟩, ⟨1, "Jane Doe".toList, "Doe".toList⟩] := by
  have happ : ∀ X Y : List Str,
      findRidersByNames (.object (.array roster)) (X ++ Y)
        = findRidersByNames (.object (.array roster)) X
            ++ findRidersByNames (.object (.array roster)) Y := by
    intro X Y
    simp only [findRidersByNames_eq_filterMap, List.filterMap_append]
  have hrep : ∀ (k : Nat) (t : Str),
      findRidersByNames (.object (.array roster)) (List.replicate k t)
        = (List.replicate k (findRidersByNames (.object (.array roster)) [t])).flatten := by
    intro k t
    induction k with
    | zero => rfl
    | succ n ih =>
      rw [List.replicate_succ, List.replicate_succ, List.flatten_cons, ← ih]
      exact happ [t] (List.replicate n t)
  refine ⟨happ A B, hrep, ?_, by decide⟩
  intro k t m hm
  rw [hrep, hm]
  induction k with
  | zero => rfl
  | succ n ih => rw [List.replicate_succ, List.flatten_cons, ih]; rfl

/-- Witness for C16: the target name `Jane` three times over. -/
theorem findRidersByNames_append_witness :
    findRidersByNames (.object (.array [⟨1, ">Jane Doe<".toList⟩]))
        (List.replicate 3 "Jane".toList)
      = List.replicate 3 ⟨1, "Jane Doe".toList, "Jane".toList⟩ :=
  (findRidersByNames_append [⟨1, ">Jane Doe<".toList⟩] [] []).2.2.1 3 "Jane".toList
    ⟨1, "Jane Doe".toList, "Jane".toList⟩ (by decide)

/-- C19: on a well-formed non-empty roster the empty target name is always
matched, and to the first entry of the roster; and a roster entry whose cleaned
name is empty is matched to every target name that no earlier entry of the
roster matches. -/
theorem findRidersByNames_degenerate :
    (∀ (r : RosterEntry) (rest : List RosterEntry),
      findRidersByNames (.object (.array (r :: rest))) [[]]
        = [⟨r.riderID, extractRiderName r.riderName, []⟩]) ∧
    (∀ (pre post : List RosterEntry) (r : RosterEntry) (t : Str),
      extractRiderName r.riderName = [] →
      (∀ x ∈ pre, ¬ NamesContain t x) →
      findRidersByNames (.object (.array (pre ++ r :: post))) [t]
        = [⟨r.riderID, [], t⟩]) := by
  constructor
  · intro r rest
    have hr : NamesContain [] r := Or.inl List.nil_infix
    have hf := find_nameMatches_of_first [] [] rest r hr (by simp)
    simp only [List.nil_append] at hf
    rw [findRidersByNames_eq_filterMap, List.filterMap_cons]
    simp only [hf, Option.map_some', List.filterMap_nil]
  · intro pre post r t hclean hpre
    have hr : NamesContain t r := Or.inr (by rw [hclean]; exact List.nil_infix)
    have hf := find_nameMatches_of_first t pre post r hr hpre
    rw [findRidersByNames_eq_filterMap, List.filterMap_cons]
    simp only [hf, Option.map_some', List.filterMap_nil, hclean]

/-- Witness for C19: the second roster entry has an empty name and the target
name `Zed` has nothing in common with the first. -/
theorem findRidersByNames_degenerate_witness :
    findRidersByNames (.object (.array [⟨1, ">Jane Doe<".toList⟩, ⟨2, []⟩, ⟨3, []⟩]))
        ["Zed".toList]
      = [⟨2, [], "Zed".toList⟩] :=
  findRidersByNames_degenerate.2 [⟨1, ">Jane Doe<".toList⟩] [⟨3, []⟩] ⟨2, []⟩ "Zed".toList
    (by decide)
    (by
      intro x hx
      rw [List.mem_singleton] at hx
      subst hx
      rw [← nameMatches_iff]
      decide)

/-! ## Claim C17: the exact behaviour of `formatClassString` -/

theorem applyClassMapping_of_firstMatch (M : List (Str × Str)) (F p v : Str)
    (h : FirstMatch M F p v) : applyClassMapping F M = v := by
  obtain ⟨pre, post, rfl, hp, hpre⟩ := h
  exact applyClassMapping_of_first_match F p v pre post hp hpre

/-- The two returns of `formatClassString`, by the outcome of the mapping
loop. -/
theorem formatClassString_eq_ite (classId : Str) (test : Option Str)
    (L : JSObject ClassRecord) (M : List (Str × Str)) :
    formatClassString classId test L M
      = if applyClassMapping (fullTestNameOf (lookupClassName L classId) test) M
            ≠ fullTestNameOf (lookupClassName L classId) test
        then applyClassMapping (fullTestNameOf (lookupClassName L classId) test) M
        else traditionalLabel classId (lookupClassName L classId) test := rfl

/-- The traditional label differs from the full test name unless both, and the
class id, are empty. -/
theorem traditional_ne_fullTestName (classId cn t : Str)
    (h : classId ≠ [] ∨ (if t = [] then cn else t) ≠ []) :
    classId ++ (if cn = [] then [] else " - ".toList ++ cn)
        ++ (if t = [] then [] else " - ".toList ++ t)
      ≠ (if t = [] then cn else t) := by
  intro heq
  have hlen := congrArg List.length heq
  by_cases ht : t = []
  · by_cases hc : cn = []
    · subst ht hc
      simp at hlen
      simp [hlen] at h
    · simp [ht, hc] at hlen
      omega
  · by_cases hc : cn = []
    · simp [ht, hc] at hlen
      omega
    · simp [ht, hc] at hlen
      omega

/-- C17, as stated, fails in one corner: with an empty class id, no test, an
empty lookup and the mapping of the empty pattern to the empty string, the
first matching pattern exists and its replacement `v` equals the (empty) full
test name, so the traditional label is built; it is the empty string too, and
`formatClassString` returns `v` although `v` does not differ from the name. -/
theorem formatClassString_returns_replacement_equal_to_name :
    ¬ ∀ (classId : Str) (test : Option Str) (L : JSObject ClassRecord)
        (M : List (Str × Str)) (p v : Str),
        FirstMatch M
          (if test.getD [] = [] then ((JSObject.get L classId).map ClassRecord.className).getD []
           else test.getD []) p v →
        (formatClassString classId test L M = v ↔
          v ≠ (if test.getD [] = [] then
                ((JSObject.get L classId).map ClassRecord.className).getD []
               else test.getD [])) := by
  intro h
  have h0 := h [] none [] [([], [])] [] [] ⟨[], [], rfl, by decide, by simp⟩
  exact absurd (h0.1 (by decide)) (by decide)

/-- C17, amended: let `F` be the test when it is non-empty and the looked-up
className otherwise.  When the first mapping pattern that is a substring of `F`
has a replacement `v` other than `F`, `formatClassString` returns `v`; when it
has the replacement `F`, or when no pattern is a substring of `F`,
`formatClassString` returns the traditional label.  Unless the class id and `F`
are both empty, the traditional label is not `F`, so that the result is `v`
exactly when `v` differs from `F`. -/
theorem formatClassString_characterisation (classId : Str) (test : Option Str)
    (L : JSObject ClassRecord) (M : List (Str × Str)) (cn t F : Str)
    (hcn : cn = ((JSObject.get L classId).map ClassRecord.className).getD [])
    (ht : t = test.getD [])
    (hF : F = if t = [] then cn else t) :
    (∀ p v, FirstMatch M F p v → v ≠ F → formatClassString classId test L M = v) ∧
    (∀ p v, FirstMatch M F p v → v = F →
      formatClassString classId test L M
        = classId ++ (if cn = [] then [] else " - ".toList ++ cn)
            ++ (if t = [] then [] else " - ".toList ++ t)) ∧
    ((∀ q ∈ M, ¬ q.1 <:+: F) →
      formatClassString classId test L M
        = classId ++ (if cn = [] then [] else " - ".toList ++ cn)
            ++ (if t = [] then [] else " - ".toList ++ t)) ∧
    (∀ p v, FirstMatch M F p v → (classId ≠ [] ∨ F ≠ []) →
      (formatClassString classId test L M = v ↔ v ≠ F)) := by
  have hFull : fullTestNameOf (lookupClassName L classId) test = F := by
    rw [fullTestNameOf_eq, lookupClassName_eq, hF, ht, hcn]
  have hTrad : traditionalLabel classId (lookupClassName L classId) test
      = classId ++ (if cn = [] then [] else " - ".toList ++ cn)
          ++ (if t = [] then [] else " - ".toList ++ t) := by
    rw [traditionalLabel_eq, lookupClassName_eq, ht, hcn]
  have hsame : ∀ p v, FirstMatch M F p v → v = F →
      formatClassString classId test L M
        = classId ++ (if cn = [] then [] else " - ".toList ++ cn)
            ++ (if t = [] then [] else " - ".toList ++ t) := by
    intro p v hfm hv
    rw [formatClassString_eq_ite, hFull, applyClassMapping_of_firstMatch M F p v hfm, hv,
      if_neg (by simp), hTrad]
  have hdiff : ∀ p v, FirstMatch M F p v → v ≠ F → formatClassString classId test L M = v := by
    intro p v hfm hv
    rw [formatClassString_eq_ite, hFull, applyClassMapping_of_firstMatch M F p v hfm, if_pos hv]
  refine ⟨hdiff, hsame, ?_, ?_⟩
  · intro hno
    rw [formatClassString_of_no_match classId test L M (by rw [hFull]; exact hno), hTrad]
  · intro p v hfm hne
    constructor
    · intro hres hv
      rw [hsame p v hfm hv, hv, hF] at hres
      exact traditional_ne_fullTestName classId cn t (by rw [← hF]; exact hne) hres
    · exact hdiff p v hfm

/-- Witness for C17: the pattern `Dressage` is the first to occur in the test
name `Dressage Test A` and maps to `D`, which is returned. -/
theorem formatClassString_characterisation_witness :
    FirstMatch [("Jumper".toList, "J".toList), ("Dressage".toList, "D".toList)]
      "Dressage Test A".toList "Dressage".toList "D".toList ∧
    formatClassString "12".toList (some "Dressage Test A".toList) emptyLookup
        [("Jumper".toList, "J".toList), ("Dressage".toList, "D".toList)] = "D".toList := by
  have hfm : FirstMatch [("Jumper".toList, "J".toList), ("Dressage".toList, "D".toList)]
      "Dressage Test A".toList "Dressage".toList "D".toList :=
    ⟨[("Jumper".toList, "J".toList)], [], rfl, by decide, by decide⟩
  exact ⟨hfm,
    (formatClassString_characterisation "12".toList (some "Dressage Test A".toList) emptyLookup
      [("Jumper".toList, "J".toList), ("Dressage".toList, "D".toList)]
      [] "Dressage Test A".toList "Dressage Test A".toList rfl rfl (by decide)).1
      "Dressage".toList "D".toList hfm (by decide)⟩

end FoxVillage
